import Mathlib

/-!
Formal model of the Interview-Questions serverless function repository.

The repository holds several near-duplicate revisions of one serverless
function.  The revisions modelled here are named:

* `R0`  — `src/main.js` (the root revision);
* `RB`  — the second revision inside `src/src/main.js` (the one with
  `generateWithRetry`, `createFallbackQuestions` and fallback padding);
* `RC`  — the third revision inside `src/src/main.js` (tip word-count
  truncation, throws when fewer than 10 questions);
* `P0`  — `src/unnamed/part_000`;
* `P2`  — `src/unnamed/part_002` (same extractor/validator core as `RC`);
* `P3`  — `src/unnamed/part_003`.

JavaScript strings are modelled as `List Char`; JSON values as the
inductive `Json`; `JSON.parse` as a fuel-indexed recursive-descent parser
`jsonParse` (covering the value grammar used by this program: strings with
the common escapes, integers, booleans, null, arrays, objects; number
fractions/exponents and `\u` escapes are outside the fragment exercised
here); `JSON.stringify` as the compact printer `stringifyJson`.  Thrown
exceptions are modelled with `Except`.
-/

set_option maxHeartbeats 1000000

namespace IQ

/-- JavaScript strings, modelled as lists of characters. -/
abbrev Str := List Char

/-- The whitespace characters recognised by the JS `\s` class / `trim` that
occur in this program's data (space, tab, newline, carriage return). -/
def isWsChar (c : Char) : Bool :=
  c == ' ' || c == '\t' || c == '\n' || c == '\r'

/-- `String.prototype.trim`. -/
def jsTrim (s : Str) : Str :=
  ((s.dropWhile isWsChar).reverse.dropWhile isWsChar).reverse

/-- `String.prototype.indexOf` for a single character. -/
def indexOfChar (c : Char) (s : Str) : Option Nat :=
  s.findIdx? (· == c)

/-- `String.prototype.lastIndexOf` for a single character. -/
def lastIndexOfChar (c : Char) (s : Str) : Option Nat :=
  match (s.reverse).findIdx? (· == c) with
  | none => none
  | some i => some (s.length - 1 - i)

/-- `String.prototype.substring s a b` (with `a ≤ b`): the characters at
positions `a, …, b-1`. -/
def jsSubstring (s : Str) (a b : Nat) : Str :=
  (s.take b).drop a

/-- JSON values (the fragment produced and consumed by this program). -/
inductive Json where
  | null
  | bool (b : Bool)
  | num (n : Int)
  | str (s : Str)
  | arr (elems : List Json)
  | obj (fields : List (Str × Json))

/-- Drop leading JSON whitespace. -/
def skipWs (s : Str) : Str := s.dropWhile isWsChar

/-- The character classes and escape table of the JSON string grammar. -/
def escDecode : Char → Option Char
  | 'n' => some '\n'
  | 't' => some '\t'
  | 'r' => some '\r'
  | '"' => some '"'
  | '\\' => some '\\'
  | '/' => some '/'
  | _ => none

/-- Parse the body of a JSON string (the opening quote already consumed);
returns the decoded content and the rest of the input. -/
def parseStrBody (s : Str) : Except String (Str × Str) :=
  match s with
  | [] => .error "unterminated string"
  | c :: rest =>
    if c = '"' then .ok ([], rest)
    else if c = '\\' then
      match rest with
      | [] => .error "bad escape"
      | e :: rest2 =>
        match escDecode e with
        | none => .error "bad escape"
        | some d =>
          match parseStrBody rest2 with
          | .ok (body, r) => .ok (d :: body, r)
          | .error m => .error m
    else
      match parseStrBody rest with
      | .ok (body, r) => .ok (c :: body, r)
      | .error m => .error m

/-- Parse a run of decimal digits into a natural number (accumulator form). -/
def parseDigits (acc : Nat) (s : Str) : Nat × Str :=
  match s with
  | [] => (acc, [])
  | c :: rest =>
    if c.isDigit then parseDigits (acc * 10 + (c.toNat - '0'.toNat)) rest
    else (acc, s)

/-- Parse a JSON integer (optional minus sign and digits). -/
def parseNumBody (s : Str) : Except String (Int × Str) :=
  match s with
  | '-' :: c :: rest =>
    if c.isDigit then
      let (n, r) := parseDigits (c.toNat - '0'.toNat) rest
      .ok (-(n : Int), r)
    else .error "bad number"
  | c :: rest =>
    if c.isDigit then
      let (n, r) := parseDigits (c.toNat - '0'.toNat) rest
      .ok ((n : Int), r)
    else .error "bad number"
  | [] => .error "bad number"

/-- The triple of parsing functions (values, array elements, object fields) at
one fuel level.  The three are defined by one structural recursion on the fuel
so that they compute by kernel reduction. -/
abbrev PTriple :=
  (Str → Except String (Json × Str)) ×
  (Str → Except String (List Json × Str)) ×
  (Str → Except String (List (Str × Json) × Str))

/-- Body of the recursive-descent JSON value parser, one fuel level: `p` holds
the parsers for the next level down. -/
def parseValueBody (p : PTriple) (s : Str) : Except String (Json × Str) :=
  match skipWs s with
    | [] => .error "unexpected end of input"
    | c :: rest =>
      if c = '"' then
        match parseStrBody rest with
        | .ok (body, r) => .ok (.str body, r)
        | .error m => .error m
      else if c = '[' then
        match skipWs rest with
        | ']' :: r => .ok (.arr [], r)
        | r2 =>
          match p.2.1 r2 with
          | .ok (elems, r) => .ok (.arr elems, r)
          | .error m => .error m
      else if c = '{' then
        match skipWs rest with
        | '}' :: r => .ok (.obj [], r)
        | r2 =>
          match p.2.2 r2 with
          | .ok (fields, r) => .ok (.obj fields, r)
          | .error m => .error m
      else if c = 't' then
        match rest with
        | 'r' :: 'u' :: 'e' :: r => .ok (.bool true, r)
        | _ => .error "bad literal"
      else if c = 'f' then
        match rest with
        | 'a' :: 'l' :: 's' :: 'e' :: r => .ok (.bool false, r)
        | _ => .error "bad literal"
      else if c = 'n' then
        match rest with
        | 'u' :: 'l' :: 'l' :: r => .ok (.null, r)
        | _ => .error "bad literal"
      else if c = '-' ∨ c.isDigit then
        match parseNumBody (c :: rest) with
        | .ok (n, r) => .ok (.num n, r)
        | .error m => .error m
      else .error "unexpected character"

/-- Body of the element parser for a non-empty JSON array (after the `[`),
one fuel level. -/
def parseElemsBody (p : PTriple) (s : Str) : Except String (List Json × Str) :=
  match p.1 s with
  | .error m => .error m
  | .ok (v, r) =>
    match skipWs r with
    | ',' :: r2 =>
      match p.2.1 r2 with
      | .ok (vs, r3) => .ok (v :: vs, r3)
      | .error m => .error m
    | ']' :: r2 => .ok ([v], r2)
    | _ => .error "expected comma or closing bracket"

/-- Body of the field parser for a non-empty JSON object (after the `{`),
one fuel level. -/
def parseFieldsBody (p : PTriple) (s : Str) : Except String (List (Str × Json) × Str) :=
  match skipWs s with
  | '"' :: rest =>
    match parseStrBody rest with
    | .error m => .error m
    | .ok (key, r) =>
      match skipWs r with
      | ':' :: r2 =>
        match p.1 r2 with
        | .error m => .error m
        | .ok (v, r3) =>
          match skipWs r3 with
          | ',' :: r4 =>
            match p.2.2 r4 with
            | .ok (fs, r5) => .ok ((key, v) :: fs, r5)
            | .error m => .error m
          | '}' :: r4 => .ok ([(key, v)], r4)
          | _ => .error "expected comma or closing brace"
      | _ => .error "expected colon"
  | _ => .error "expected object key"

/-- All three parsers at a given fuel, by structural recursion on the fuel. -/
def parsers : Nat → PTriple
  | 0 =>
    (fun _ => .error "out of fuel", fun _ => .error "out of fuel",
     fun _ => .error "out of fuel")
  | fuel + 1 =>
    (parseValueBody (parsers fuel), parseElemsBody (parsers fuel),
     parseFieldsBody (parsers fuel))

/-- Recursive-descent JSON value parser (fuel-indexed). -/
def parseValue (fuel : Nat) (s : Str) : Except String (Json × Str) :=
  (parsers fuel).1 s

/-- Parse the elements of a non-empty JSON array (after the `[`). -/
def parseElems (fuel : Nat) (s : Str) : Except String (List Json × Str) :=
  (parsers fuel).2.1 s

/-- Parse the fields of a non-empty JSON object (after the `{`). -/
def parseFields (fuel : Nat) (s : Str) : Except String (List (Str × Json) × Str) :=
  (parsers fuel).2.2 s

/-- Unfolding of `parseValue` at successor fuel. -/
theorem parseValue_succ (fuel : Nat) (s : Str) :
    parseValue (fuel + 1) s
      = parseValueBody (parseValue fuel, parseElems fuel, parseFields fuel) s := rfl

/-- Unfolding of `parseElems` at successor fuel. -/
theorem parseElems_succ (fuel : Nat) (s : Str) :
    parseElems (fuel + 1) s
      = parseElemsBody (parseValue fuel, parseElems fuel, parseFields fuel) s := rfl

/-- Unfolding of `parseFields` at successor fuel. -/
theorem parseFields_succ (fuel : Nat) (s : Str) :
    parseFields (fuel + 1) s
      = parseFieldsBody (parseValue fuel, parseElems fuel, parseFields fuel) s := rfl

/-- `JSON.parse`: parse a complete JSON text (whole input consumed). -/
def jsonParse (s : Str) : Except String Json :=
  match parseValue (2 * s.length + 2) s with
  | .error m => .error m
  | .ok (v, r) => if skipWs r = [] then .ok v else .error "unexpected trailing characters"

/-- Escape one character for a JSON string literal. -/
def escEncode (c : Char) : Str :=
  if c = '"' then ['\\', '"']
  else if c = '\\' then ['\\', '\\']
  else if c = '\n' then ['\\', 'n']
  else if c = '\t' then ['\\', 't']
  else if c = '\r' then ['\\', 'r']
  else [c]

/-- Escape the content of a JSON string literal. -/
def escapeStr (s : Str) : Str := (s.map escEncode).flatten

/-- Decimal representation of an integer. -/
def intRepr (n : Int) : Str := (toString n).toList

/-- Comma-join a list of strings (`Array.prototype.join(',')`, and the comma
separation of `JSON.stringify`). -/
def joinComma : List Str → Str
  | [] => []
  | [x] => x
  | x :: y :: rest => x ++ ',' :: joinComma (y :: rest)

/-- `JSON.stringify` (compact form, no added whitespace), by structural
recursion on a depth bound so that it computes by kernel reduction.  The bound
is spent one unit per nesting level; every call site passes a bound larger
than the nesting depth of its argument (a value parsed from a string of length
`n` nests at most `n` deep, one consumed opening character per level, and the
`+ 8` margin also covers the constant nesting depth of the static fallback
data), so the out-of-fuel clause is never reached there and the function is
exactly `JSON.stringify`. -/
def stringifyJson : Nat → Json → Str
  | 0, _ => []
  | _ + 1, .null => ['n', 'u', 'l', 'l']
  | _ + 1, .bool true => ['t', 'r', 'u', 'e']
  | _ + 1, .bool false => ['f', 'a', 'l', 's', 'e']
  | _ + 1, .num n => intRepr n
  | _ + 1, .str s => '"' :: escapeStr s ++ ['"']
  | depth + 1, .arr xs => '[' :: joinComma (xs.map (fun x => stringifyJson depth x)) ++ [']']
  | depth + 1, .obj fs =>
    '{' :: joinComma
      (fs.map (fun kv => '"' :: escapeStr kv.1 ++ '"' :: ':' :: stringifyJson depth kv.2)) ++ ['}']

/-- Whether `stringifyJson` has enough fuel for `j`: `true` iff the depth
bound covers the nesting depth, in which case extra fuel does not change the
output (`stringifyJson_fits`). -/
def jfits : Nat → Json → Bool
  | 0, _ => false
  | depth + 1, .arr xs => xs.all (fun x => jfits depth x)
  | depth + 1, .obj fs => fs.all (fun kv => jfits depth kv.2)
  | _ + 1, _ => true

/-- Once the depth bound covers the value, the bound is irrelevant:
`stringifyJson` agrees at any two sufficient bounds. -/
theorem stringifyJson_fits : ∀ (m n : Nat) (j : Json), jfits m j = true →
    jfits n j = true → stringifyJson m j = stringifyJson n j := by
  intro m
  induction m with
  | zero => intro n j hm; simp [jfits] at hm
  | succ m ih =>
    intro n j hm hn
    match n with
    | 0 => simp [jfits] at hn
    | n + 1 =>
      match j with
      | .null => rfl
      | .bool b => cases b <;> rfl
      | .num k => rfl
      | .str s => rfl
      | .arr xs =>
        simp only [jfits, List.all_eq_true] at hm hn
        simp only [stringifyJson]
        rw [List.map_congr_left (fun x hx => ih n x (hm x hx) (hn x hx))]
      | .obj fs =>
        simp only [jfits, List.all_eq_true] at hm hn
        simp only [stringifyJson]
        rw [List.map_congr_left
          (fun kv hkv => by rw [ih n kv.2 (hm kv hkv) (hn kv hkv)])]

/-- The depth-fits predicate is monotone in the bound. -/
theorem jfits_mono : ∀ (m n : Nat) (j : Json), m ≤ n → jfits m j = true →
    jfits n j = true := by
  intro m
  induction m with
  | zero => intro n j _ hm; simp [jfits] at hm
  | succ m ih =>
    intro n j hmn hm
    match n with
    | 0 => omega
    | n + 1 =>
      match j with
      | .null => rfl
      | .bool b => rfl
      | .num k => rfl
      | .str s => rfl
      | .arr xs =>
        simp only [jfits, List.all_eq_true] at hm ⊢
        exact fun x hx => ih n x (by omega) (hm x hx)
      | .obj fs =>
        simp only [jfits, List.all_eq_true] at hm ⊢
        exact fun kv hkv => ih n kv.2 (by omega) (hm kv hkv)

/-! ### The regex substitutions of `extractAndCleanJSON`

Each JS `String.replace(regex, replacement)` with a `g` flag is modelled as a
left-to-right scanner: at each position it attempts the pattern; on a match it
emits the replacement and continues after the match, otherwise it emits one
character and moves on (the semantics of global regex replacement for these
patterns, none of which can match spanning a replacement). -/

/-- Dropping a prefix cannot lengthen a list (used for termination of the
substitution scanners). -/
theorem length_dropWhile_le {α : Type} (p : α → Bool) (l : List α) :
    (l.dropWhile p).length ≤ l.length := by
  induction l with
  | nil => simp [List.dropWhile]
  | cons c rest ih =>
    simp only [List.dropWhile]
    split
    · simp only [List.length_cons]; omega
    · simp

/-- `text.replace(/```json\s*/gi, '')` — strip "```json" fences (case-insensitive)
and the whitespace run after them. -/
def stripJsonFences : Str → Str
  | '`' :: '`' :: '`' :: c1 :: c2 :: c3 :: c4 :: rest =>
    if c1.toLower = 'j' ∧ c2.toLower = 's' ∧ c3.toLower = 'o' ∧ c4.toLower = 'n' then
      stripJsonFences (rest.dropWhile isWsChar)
    else
      '`' :: stripJsonFences ('`' :: '`' :: c1 :: c2 :: c3 :: c4 :: rest)
  | c :: rest => c :: stripJsonFences rest
  | [] => []
termination_by s => s.length
decreasing_by
  · simp only [List.length_cons]
    have := IQ.length_dropWhile_le isWsChar rest
    omega
  · simp only [List.length_cons]; omega
  · simp only [List.length_cons]; omega

/-- `text.replace(/```\s*/g, '')` — strip bare "```" fences and the whitespace
run after them. -/
def stripFences : Str → Str
  | '`' :: '`' :: '`' :: rest => stripFences (rest.dropWhile isWsChar)
  | c :: rest => c :: stripFences rest
  | [] => []
termination_by s => s.length
decreasing_by
  · simp only [List.length_cons]
    have := IQ.length_dropWhile_le isWsChar rest
    omega
  · simp only [List.length_cons]; omega

/-- `.replace(/,(\s*[}\]])/g, '$1')` — remove trailing commas before a closing
brace or bracket. -/
def stripTrailingCommas : Str → Str
  | [] => []
  | c :: rest =>
    if c = ',' then
      match h : rest.dropWhile isWsChar with
      | b :: r2 =>
        if b = '}' ∨ b = ']' then
          rest.takeWhile isWsChar ++ b :: stripTrailingCommas r2
        else ',' :: stripTrailingCommas rest
      | [] => ',' :: stripTrailingCommas rest
    else c :: stripTrailingCommas rest
termination_by s => s.length
decreasing_by
  · have h1 := IQ.length_dropWhile_le isWsChar rest
    rw [h] at h1
    simp only [List.length_cons] at h1 ⊢
    omega
  · simp only [List.length_cons]; omega
  · simp only [List.length_cons]; omega
  · simp only [List.length_cons]; omega

/-- First character of a JS identifier (`[a-zA-Z_$]`). -/
def isIdentStart (c : Char) : Bool :=
  (c.isUpper || c.isLower) || c == '_' || c == '$'

/-- Later characters of a JS identifier (`[a-zA-Z0-9_$]`). -/
def isIdentChar (c : Char) : Bool :=
  (c.isUpper || c.isLower) || c.isDigit || c == '_' || c == '$'

/-- `.replace(/([{,]\s*)([a-zA-Z_$][a-zA-Z0-9_$]*)\s*:/g, '$1"$2":')` — quote
bare object keys (the `part_002` / second-`src/src/main.js`-revision pattern). -/
def quoteBareKeys : Str → Str
  | [] => []
  | c :: rest =>
    if c = '{' ∨ c = ',' then
      match h : ((rest.dropWhile isWsChar).dropWhile isIdentChar).dropWhile isWsChar with
      | ':' :: r4 =>
        match (rest.dropWhile isWsChar).takeWhile isIdentChar with
        | i0 :: irest =>
          if isIdentStart i0 then
            c :: rest.takeWhile isWsChar ++ '"' :: (i0 :: irest) ++ '"' :: ':' :: quoteBareKeys r4
          else c :: quoteBareKeys rest
        | [] => c :: quoteBareKeys rest
      | _ => c :: quoteBareKeys rest
    else c :: quoteBareKeys rest
termination_by s => s.length
decreasing_by
  · have h1 := IQ.length_dropWhile_le isWsChar (List.dropWhile isIdentChar (rest.dropWhile isWsChar))
    have h2 := IQ.length_dropWhile_le isIdentChar (rest.dropWhile isWsChar)
    have h3 := IQ.length_dropWhile_le isWsChar rest
    rw [h] at h1
    simp only [List.length_cons] at h1 ⊢
    omega
  all_goals simp only [List.length_cons]; omega

/-- Characters other than a single quote (`[^']`). -/
def isNotQuote (d : Char) : Bool := ¬ d = '\''

/-- `.replace(/:\s*'([^']*)'/g, ': "$1"')` — convert a single-quoted string in
value position (right after a colon) to a double-quoted one. -/
def singleQuotesToDouble : Str → Str
  | [] => []
  | c :: rest =>
    if c = ':' then
      match hq : rest.dropWhile isWsChar with
      | q :: r1 =>
        if q = '\'' then
          match h : r1.dropWhile isNotQuote with
          | _ :: r2 =>
            ':' :: ' ' :: '"' :: r1.takeWhile isNotQuote ++ '"' :: singleQuotesToDouble r2
          | [] => ':' :: singleQuotesToDouble rest
        else ':' :: singleQuotesToDouble rest
      | [] => ':' :: singleQuotesToDouble rest
    else c :: singleQuotesToDouble rest
termination_by s => s.length
decreasing_by
  · have h1 := IQ.length_dropWhile_le isNotQuote r1
    have h2 := IQ.length_dropWhile_le isWsChar rest
    rw [h] at h1
    rw [hq] at h2
    simp only [List.length_cons] at h1 h2 ⊢
    omega
  all_goals simp only [List.length_cons]; omega

/-- `.replace(/\n/g, ' ')` — newlines to spaces. -/
def newlinesToSpaces (s : Str) : Str :=
  s.map (fun c => if c = '\n' then ' ' else c)

/-- `.replace(/\s+/g, ' ')` — collapse each whitespace run to one space. -/
def collapseWhitespace : Str → Str
  | [] => []
  | c :: rest =>
    if isWsChar c then ' ' :: collapseWhitespace (rest.dropWhile isWsChar)
    else c :: collapseWhitespace rest
termination_by s => s.length
decreasing_by
  · have h1 := IQ.length_dropWhile_le isWsChar rest
    simp only [List.length_cons]
    omega
  · simp only [List.length_cons]; omega

/-- `.replace(/"\s*:\s*"/g, '": "')` — normalise spacing of a colon between two
double quotes. -/
def fixColonSpacing : Str → Str
  | [] => []
  | c :: rest =>
    if c = '"' then
      match h1 : rest.dropWhile isWsChar with
      | ':' :: r1 =>
        match h2 : r1.dropWhile isWsChar with
        | d :: r2 =>
          if d = '"' then '"' :: ':' :: ' ' :: '"' :: fixColonSpacing r2
          else '"' :: fixColonSpacing rest
        | [] => '"' :: fixColonSpacing rest
      | _ => '"' :: fixColonSpacing rest
    else c :: fixColonSpacing rest
termination_by s => s.length
decreasing_by
  · have ha := IQ.length_dropWhile_le isWsChar rest
    have hb := IQ.length_dropWhile_le isWsChar r1
    rw [h1] at ha
    rw [h2] at hb
    simp only [List.length_cons] at ha hb ⊢
    omega
  all_goals simp only [List.length_cons]; omega

/-- `.replace(/"\s*,\s*"/g, '", "')` — normalise spacing of a comma between two
double quotes. -/
def fixCommaSpacing : Str → Str
  | [] => []
  | c :: rest =>
    if c = '"' then
      match h1 : rest.dropWhile isWsChar with
      | ',' :: r1 =>
        match h2 : r1.dropWhile isWsChar with
        | d :: r2 =>
          if d = '"' then '"' :: ',' :: ' ' :: '"' :: fixCommaSpacing r2
          else '"' :: fixCommaSpacing rest
        | [] => '"' :: fixCommaSpacing rest
      | _ => '"' :: fixCommaSpacing rest
    else c :: fixCommaSpacing rest
termination_by s => s.length
decreasing_by
  · have ha := IQ.length_dropWhile_le isWsChar rest
    have hb := IQ.length_dropWhile_le isWsChar r1
    rw [h1] at ha
    rw [h2] at hb
    simp only [List.length_cons] at ha hb ⊢
    omega
  all_goals simp only [List.length_cons]; omega

/-! ### Object reconstruction (`part_002` / second revision, lines 62–97)

When no `[`…`]` boundaries are found, the extractor scans for top-level
objects by brace counting and joins them into an array. -/

/-- Scan for the closing brace matching an already-consumed run of `depth`
open braces; returns the consumed characters (closing brace included) and the
remainder, or `none` when the braces never balance. -/
def scanToClose (depth : Nat) (s : Str) : Option (Str × Str) :=
  match s with
  | [] => none
  | c :: rest =>
    if c = '}' then
      if depth = 1 then some ([c], rest)
      else
        match scanToClose (depth - 1) rest with
        | some (a, r) => some (c :: a, r)
        | none => none
    else if c = '{' then
      match scanToClose (depth + 1) rest with
      | some (a, r) => some (c :: a, r)
      | none => none
    else
      match scanToClose depth rest with
      | some (a, r) => some (c :: a, r)
      | none => none

/-- A successful brace scan consumes at least one character. -/
theorem scanToClose_length_lt : ∀ (s : Str) (depth : Nat) (a r : Str),
    scanToClose depth s = some (a, r) → r.length < s.length := by
  intro s
  induction s with
  | nil => intro depth a r h; simp [scanToClose] at h
  | cons c rest ih =>
    intro depth a r h
    rw [scanToClose] at h
    split at h
    · split at h
      · simp only [Option.some.injEq, Prod.mk.injEq] at h
        obtain ⟨_, rfl⟩ := h
        simp
      · split at h
        · rename_i a0 r0 heq
          simp only [Option.some.injEq, Prod.mk.injEq] at h
          obtain ⟨_, rfl⟩ := h
          have := ih _ _ _ heq
          simp only [List.length_cons]
          omega
        · exact absurd h (by simp)
    · split at h
      · split at h
        · rename_i a0 r0 heq
          simp only [Option.some.injEq, Prod.mk.injEq] at h
          obtain ⟨_, rfl⟩ := h
          have := ih _ _ _ heq
          simp only [List.length_cons]
          omega
        · exact absurd h (by simp)
      · split at h
        · rename_i a0 r0 heq
          simp only [Option.some.injEq, Prod.mk.injEq] at h
          obtain ⟨_, rfl⟩ := h
          have := ih _ _ _ heq
          simp only [List.length_cons]
          omega
        · exact absurd h (by simp)

/-- Characters other than an opening brace. -/
def isNotOpenBrace (c : Char) : Bool := ¬ c = '{'

/-- The `while (currentPos < cleaned.length)` loop: repeatedly find the next
`{`, brace-count to its matching `}`, and collect the object substrings;
stop at the first unbalanced object or when no `{` remains. -/
def collectObjects (s : Str) : List Str :=
  match h : s.dropWhile isNotOpenBrace with
  | '{' :: rest =>
    match h2 : scanToClose 1 rest with
    | some (body, r) => ('{' :: body) :: collectObjects r
    | none => []
  | _ => []
termination_by s.length
decreasing_by
  have ha := IQ.length_dropWhile_le isNotOpenBrace s
  rw [h] at ha
  have hb := scanToClose_length_lt rest 1 body r h2
  simp only [List.length_cons] at ha
  omega

/-! ### Fuel-indexed twins of the well-founded scanners

The scanners above recurse on shrinking non-subterm suffixes, so they are
compiled by well-founded recursion and do not compute by kernel reduction.
Each gets a twin that takes explicit fuel (structural recursion, so it does
compute) and an equivalence theorem for sufficient fuel: concrete runs of a
scanner are evaluated through its twin. -/

/-- Fuel twin of `stripJsonFences`. -/
def stripJsonFencesF : Nat → Str → Str
  | 0, s => s
  | fuel + 1, '`' :: '`' :: '`' :: c1 :: c2 :: c3 :: c4 :: rest =>
    if c1.toLower = 'j' ∧ c2.toLower = 's' ∧ c3.toLower = 'o' ∧ c4.toLower = 'n' then
      stripJsonFencesF fuel (rest.dropWhile isWsChar)
    else
      '`' :: stripJsonFencesF fuel ('`' :: '`' :: c1 :: c2 :: c3 :: c4 :: rest)
  | fuel + 1, c :: rest => c :: stripJsonFencesF fuel rest
  | _ + 1, [] => []

/-- The twin agrees with `stripJsonFences` whenever the fuel covers the
input length. -/
theorem stripJsonFencesF_eq : ∀ (s : Str) (n : Nat), s.length ≤ n →
    stripJsonFencesF n s = stripJsonFences s := by
  intro s
  induction s using stripJsonFences.induct with
  | case1 c1 c2 c3 c4 rest hcond ih =>
    intro n hn
    simp only [List.length_cons] at hn
    match n with
    | n + 1 =>
      rw [stripJsonFences, stripJsonFencesF, if_pos hcond, if_pos hcond,
        ih n (le_trans (length_dropWhile_le _ _) (by omega))]
  | case2 c1 c2 c3 c4 rest hcond ih =>
    intro n hn
    simp only [List.length_cons] at hn
    match n with
    | n + 1 =>
      rw [stripJsonFences, stripJsonFencesF, if_neg hcond, if_neg hcond,
        ih n (by simp only [List.length_cons]; omega)]
  | case3 c rest hne ih =>
    intro n hn
    simp only [List.length_cons] at hn
    match n with
    | n + 1 =>
      rw [stripJsonFences, stripJsonFencesF, ih n (by omega)]
      all_goals exact hne
  | case4 =>
    intro n hn
    match n with
    | 0 => rw [stripJsonFences]; rfl
    | n + 1 => rw [stripJsonFences]; rfl

/-- Fuel twin of `stripFences`. -/
def stripFencesF : Nat → Str → Str
  | 0, s => s
  | fuel + 1, '`' :: '`' :: '`' :: rest => stripFencesF fuel (rest.dropWhile isWsChar)
  | fuel + 1, c :: rest => c :: stripFencesF fuel rest
  | _ + 1, [] => []

/-- The twin agrees with `stripFences` whenever the fuel covers the input
length. -/
theorem stripFencesF_eq : ∀ (s : Str) (n : Nat), s.length ≤ n →
    stripFencesF n s = stripFences s := by
  intro s
  induction s using stripFences.induct with
  | case1 rest ih =>
    intro n hn
    simp only [List.length_cons] at hn
    match n with
    | n + 1 =>
      rw [stripFences, stripFencesF, ih n (le_trans (length_dropWhile_le _ _) (by omega))]
  | case2 c rest hne ih =>
    intro n hn
    simp only [List.length_cons] at hn
    match n with
    | n + 1 =>
      rw [stripFences, stripFencesF, ih n (by omega)]
      all_goals exact hne
  | case3 =>
    intro n hn
    match n with
    | 0 => rw [stripFences]; rfl
    | n + 1 => rw [stripFences]; rfl

/-- Fuel twin of `stripTrailingCommas`. -/
def stripTrailingCommasF : Nat → Str → Str
  | 0, s => s
  | _ + 1, [] => []
  | fuel + 1, c :: rest =>
    if c = ',' then
      match rest.dropWhile isWsChar with
      | b :: r2 =>
        if b = '}' ∨ b = ']' then
          rest.takeWhile isWsChar ++ b :: stripTrailingCommasF fuel r2
        else ',' :: stripTrailingCommasF fuel rest
      | [] => ',' :: stripTrailingCommasF fuel rest
    else c :: stripTrailingCommasF fuel rest

/-- The twin agrees with `stripTrailingCommas` whenever the fuel covers the
input length. -/
theorem stripTrailingCommasF_eq : ∀ (s : Str) (n : Nat), s.length ≤ n →
    stripTrailingCommasF n s = stripTrailingCommas s := by
  intro s
  induction s using stripTrailingCommas.induct with
  | case1 =>
    intro n hn
    match n with
    | 0 => rw [stripTrailingCommas]; rfl
    | n + 1 => rw [stripTrailingCommas]; rfl
  | case2 rest b r2 heq hb ih =>
    intro n hn
    simp only [List.length_cons] at hn
    have hr2 : r2.length < rest.length := by
      have h1 := length_dropWhile_le isWsChar rest
      rw [heq] at h1
      simp only [List.length_cons] at h1
      omega
    match n with
    | n + 1 =>
      have ih2 := ih n (by omega)
      conv_lhs => simp [stripTrailingCommasF, heq, hb, ih2]
      rw [stripTrailingCommas, if_pos rfl]
      split
      · rename_i b2 r3 h2
        rw [heq] at h2
        injection h2 with hbb hrr
        subst hbb
        subst hrr
        rw [if_pos hb]
      · rename_i h2
        rw [heq] at h2
        all_goals simp at h2
  | case3 rest b r2 heq hb ih =>
    intro n hn
    simp only [List.length_cons] at hn
    match n with
    | n + 1 =>
      have ih2 := ih n (by omega)
      conv_lhs => simp [stripTrailingCommasF, heq, hb, ih2]
      rw [stripTrailingCommas, if_pos rfl]
      split
      · rename_i b2 r3 h2
        rw [heq] at h2
        injection h2 with hbb hrr
        subst hbb
        subst hrr
        rw [if_neg hb]
      · rename_i h2
        rw [heq] at h2
        all_goals simp at h2
  | case4 rest heq ih =>
    intro n hn
    simp only [List.length_cons] at hn
    match n with
    | n + 1 =>
      have ih2 := ih n (by omega)
      conv_lhs => simp [stripTrailingCommasF, heq, ih2]
      rw [stripTrailingCommas, if_pos rfl]
      split
      · rename_i b2 r3 h2
        rw [heq] at h2
        all_goals simp at h2
      · rfl
  | case5 c rest hc ih =>
    intro n hn
    simp only [List.length_cons] at hn
    match n with
    | n + 1 =>
      have ih2 := ih n (by omega)
      conv_lhs => simp [stripTrailingCommasF, hc, ih2]
      rw [stripTrailingCommas, if_neg hc]

/-- Fuel twin of `quoteBareKeys`. -/
def quoteBareKeysF : Nat → Str → Str
  | 0, s => s
  | _ + 1, [] => []
  | fuel + 1, c :: rest =>
    if c = '{' ∨ c = ',' then
      match ((rest.dropWhile isWsChar).dropWhile isIdentChar).dropWhile isWsChar with
      | ':' :: r4 =>
        match (rest.dropWhile isWsChar).takeWhile isIdentChar with
        | i0 :: irest =>
          if isIdentStart i0 then
            c :: rest.takeWhile isWsChar ++ '"' :: (i0 :: irest) ++ '"' :: ':' :: quoteBareKeysF fuel r4
          else c :: quoteBareKeysF fuel rest
        | [] => c :: quoteBareKeysF fuel rest
      | _ => c :: quoteBareKeysF fuel rest
    else c :: quoteBareKeysF fuel rest

/-- The twin agrees with `quoteBareKeys` whenever the fuel covers the input
length. -/
theorem quoteBareKeysF_eq : ∀ (s : Str) (n : Nat), s.length ≤ n →
    quoteBareKeysF n s = quoteBareKeys s := by
  intro s
  induction s using quoteBareKeys.induct with
  | case1 =>
    intro n hn
    match n with
    | 0 => rw [quoteBareKeys]; rfl
    | n + 1 => rw [quoteBareKeys]; rfl
  | case2 c rest hc r4 heq i0 irest hid hstart ih =>
    intro n hn
    simp only [List.length_cons] at hn
    have hr4 : r4.length < rest.length := by
      have h1 := length_dropWhile_le isWsChar ((rest.dropWhile isWsChar).dropWhile isIdentChar)
      have h2 := length_dropWhile_le isIdentChar (rest.dropWhile isWsChar)
      have h3 := length_dropWhile_le isWsChar rest
      rw [heq] at h1
      simp only [List.length_cons] at h1
      have h4 : (rest.dropWhile isWsChar).length ≠ 0 := by
        intro h0
        rw [List.eq_nil_of_length_eq_zero h0] at hid
        simp [List.takeWhile] at hid
      omega
    match n with
    | n + 1 =>
      have ih2 := ih n (by omega)
      conv_lhs => simp [quoteBareKeysF, heq, hid, hstart, hc, ih2]
      rw [quoteBareKeys, if_pos hc]
      split
      · rename_i r5 h2
        rw [heq] at h2
        injection h2 with hdd hrr
        subst hrr
        simp only [hid]
        rw [if_pos hstart]
        simp
      · rename_i h2 hne2
        exact absurd heq (hne2 r4)
  | case3 c rest hc r4 heq i0 irest hid hstart ih =>
    intro n hn
    simp only [List.length_cons] at hn
    match n with
    | n + 1 =>
      have ih2 := ih n (by omega)
      conv_lhs => simp [quoteBareKeysF, heq, hid, hstart, hc, ih2]
      rw [quoteBareKeys, if_pos hc]
      split
      · rename_i r5 h2
        rw [heq] at h2
        injection h2 with hdd hrr
        subst hrr
        simp only [hid]
        rw [if_neg hstart]
      · rename_i h2 hne2
        exact absurd heq (hne2 r4)
  | case4 c rest hc r4 heq hid ih =>
    intro n hn
    simp only [List.length_cons] at hn
    match n with
    | n + 1 =>
      have ih2 := ih n (by omega)
      conv_lhs => simp [quoteBareKeysF, heq, hid, hc, ih2]
      rw [quoteBareKeys, if_pos hc]
      split
      · rename_i r5 h2
        rw [heq] at h2
        injection h2 with hdd hrr
        subst hrr
        simp only [hid]
      · rename_i h2 hne2
        exact absurd heq (hne2 r4)
  | case5 c rest hc hne ih =>
    intro n hn
    simp only [List.length_cons] at hn
    match n with
    | n + 1 =>
      have ih2 := ih n (by omega)
      match hdw : ((rest.dropWhile isWsChar).dropWhile isIdentChar).dropWhile isWsChar with
      | ':' :: r4 => exact absurd hdw (hne r4)
      | [] =>
        conv_lhs => simp [quoteBareKeysF, hdw, hc, ih2]
        rw [quoteBareKeys, if_pos hc]
        split
        · rename_i r5 h2
          rw [hdw] at h2
          all_goals simp at h2
        · rfl
      | d :: r4 =>
        have hd : ¬ d = ':' := fun h0 => hne r4 (h0 ▸ hdw)
        conv_lhs => simp [quoteBareKeysF, hdw, hd, hc, ih2]
        rw [quoteBareKeys, if_pos hc]
        split
        · rename_i r5 h2
          rw [hdw] at h2
          injection h2 with hdd hrr
          exact absurd hdd hd
        · rfl
  | case6 c rest hc ih =>
    intro n hn
    simp only [List.length_cons] at hn
    match n with
    | n + 1 =>
      have ih2 := ih n (by omega)
      conv_lhs => simp [quoteBareKeysF, hc, ih2]
      rw [quoteBareKeys, if_neg hc]

/-- Fuel twin of `singleQuotesToDouble`. -/
def singleQuotesToDoubleF : Nat → Str → Str
  | 0, s => s
  | _ + 1, [] => []
  | fuel + 1, c :: rest =>
    if c = ':' then
      match rest.dropWhile isWsChar with
      | q :: r1 =>
        if q = '\'' then
          match r1.dropWhile isNotQuote with
          | _ :: r2 =>
            ':' :: ' ' :: '"' :: r1.takeWhile isNotQuote ++ '"' :: singleQuotesToDoubleF fuel r2
          | [] => ':' :: singleQuotesToDoubleF fuel rest
        else ':' :: singleQuotesToDoubleF fuel rest
      | [] => ':' :: singleQuotesToDoubleF fuel rest
    else c :: singleQuotesToDoubleF fuel rest

/-- The twin agrees with `singleQuotesToDouble` whenever the fuel covers the
input length. -/
theorem singleQuotesToDoubleF_eq : ∀ (s : Str) (n : Nat), s.length ≤ n →
    singleQuotesToDoubleF n s = singleQuotesToDouble s := by
  intro s
  induction s using singleQuotesToDouble.induct with
  | case1 =>
    intro n hn
    match n with
    | 0 => rw [singleQuotesToDouble]; rfl
    | n + 1 => rw [singleQuotesToDouble]; rfl
  | case2 rest r1 b r2 hdq hq ih =>
    intro n hn
    simp only [List.length_cons] at hn
    have hr2 : r2.length < rest.length := by
      have h1 := length_dropWhile_le isNotQuote r1
      have h2 := length_dropWhile_le isWsChar rest
      rw [hdq] at h1
      rw [hq] at h2
      simp only [List.length_cons] at h1 h2
      omega
    match n with
    | n + 1 =>
      have ih2 := ih n (by omega)
      conv_lhs => simp [singleQuotesToDoubleF, hq, hdq, ih2]
      rw [singleQuotesToDouble, if_pos rfl]
      split
      · rename_i q2 r12 h1
        rw [hq] at h1
        injection h1 with hqq hrr
        subst hqq
        subst hrr
        rw [if_pos rfl]
        split
        · rename_i e r22 h2
          rw [hdq] at h2
          injection h2 with hee hrr2
          subst hrr2
          simp
        · rename_i h2
          rw [hdq] at h2
          all_goals simp at h2
      · rename_i h1
        rw [hq] at h1
        all_goals simp at h1
  | case3 rest r1 hdq hq ih =>
    intro n hn
    simp only [List.length_cons] at hn
    match n with
    | n + 1 =>
      have ih2 := ih n (by omega)
      conv_lhs => simp [singleQuotesToDoubleF, hq, hdq, ih2]
      rw [singleQuotesToDouble, if_pos rfl]
      split
      · rename_i q2 r12 h1
        rw [hq] at h1
        injection h1 with hqq hrr
        subst hqq
        subst hrr
        rw [if_pos rfl]
        split
        · rename_i e r22 h2
          rw [hdq] at h2
          all_goals simp at h2
        · rfl
      · rename_i h1
        rw [hq] at h1
        all_goals simp at h1
  | case4 rest b r1 hq hb ih =>
    intro n hn
    simp only [List.length_cons] at hn
    match n with
    | n + 1 =>
      have ih2 := ih n (by omega)
      conv_lhs => simp [singleQuotesToDoubleF, hq, hb, ih2]
      rw [singleQuotesToDouble, if_pos rfl]
      split
      · rename_i q2 r12 h1
        rw [hq] at h1
        injection h1 with hqq hrr
        subst hqq
        subst hrr
        rw [if_neg hb]
      · rename_i h1
        rw [hq] at h1
        all_goals simp at h1
  | case5 rest hq ih =>
    intro n hn
    simp only [List.length_cons] at hn
    match n with
    | n + 1 =>
      have ih2 := ih n (by omega)
      conv_lhs => simp [singleQuotesToDoubleF, hq, ih2]
      rw [singleQuotesToDouble, if_pos rfl]
      split
      · rename_i q2 r12 h1
        rw [hq] at h1
        all_goals simp at h1
      · rfl
  | case6 c rest hc ih =>
    intro n hn
    simp only [List.length_cons] at hn
    match n with
    | n + 1 =>
      have ih2 := ih n (by omega)
      conv_lhs => simp [singleQuotesToDoubleF, hc, ih2]
      rw [singleQuotesToDouble, if_neg hc]

/-- Fuel twin of `collapseWhitespace`. -/
def collapseWhitespaceF : Nat → Str → Str
  | 0, s => s
  | _ + 1, [] => []
  | fuel + 1, c :: rest =>
    if isWsChar c then ' ' :: collapseWhitespaceF fuel (rest.dropWhile isWsChar)
    else c :: collapseWhitespaceF fuel rest

/-- The twin agrees with `collapseWhitespace` whenever the fuel covers the
input length. -/
theorem collapseWhitespaceF_eq : ∀ (s : Str) (n : Nat), s.length ≤ n →
    collapseWhitespaceF n s = collapseWhitespace s := by
  intro s
  induction s using collapseWhitespace.induct with
  | case1 =>
    intro n hn
    match n with
    | 0 => rw [collapseWhitespace]; rfl
    | n + 1 => rw [collapseWhitespace]; rfl
  | case2 c rest hc ih =>
    intro n hn
    simp only [List.length_cons] at hn
    match n with
    | n + 1 =>
      rw [collapseWhitespace, collapseWhitespaceF, if_pos hc, if_pos hc,
        ih n (le_trans (length_dropWhile_le _ _) (by omega))]
  | case3 c rest hc ih =>
    intro n hn
    simp only [List.length_cons] at hn
    match n with
    | n + 1 =>
      rw [collapseWhitespace, collapseWhitespaceF, if_neg hc, if_neg hc, ih n (by omega)]

/-- Fuel twin of `fixColonSpacing`. -/
def fixColonSpacingF : Nat → Str → Str
  | 0, s => s
  | _ + 1, [] => []
  | fuel + 1, c :: rest =>
    if c = '"' then
      match rest.dropWhile isWsChar with
      | ':' :: r1 =>
        match r1.dropWhile isWsChar with
        | d :: r2 =>
          if d = '"' then '"' :: ':' :: ' ' :: '"' :: fixColonSpacingF fuel r2
          else '"' :: fixColonSpacingF fuel rest
        | [] => '"' :: fixColonSpacingF fuel rest
      | _ => '"' :: fixColonSpacingF fuel rest
    else c :: fixColonSpacingF fuel rest

/-- The twin agrees with `fixColonSpacing` whenever the fuel covers the input
length. -/
theorem fixColonSpacingF_eq : ∀ (s : Str) (n : Nat), s.length ≤ n →
    fixColonSpacingF n s = fixColonSpacing s := by
  intro s
  induction s using fixColonSpacing.induct with
  | case1 =>
    intro n hn
    match n with
    | 0 => rw [fixColonSpacing]; rfl
    | n + 1 => rw [fixColonSpacing]; rfl
  | case2 rest r1 heq r2 heq2 ih =>
    intro n hn
    simp only [List.length_cons] at hn
    have hr2 : r2.length < rest.length := by
      have h1 := length_dropWhile_le isWsChar rest
      have h2 := length_dropWhile_le isWsChar r1
      rw [heq] at h1
      rw [heq2] at h2
      simp only [List.length_cons] at h1 h2
      omega
    match n with
    | n + 1 =>
      have ih2 := ih n (by omega)
      conv_lhs => simp [fixColonSpacingF, heq, heq2, ih2]
      rw [fixColonSpacing, if_pos rfl]
      split
      · rename_i r12 h1
        rw [heq] at h1
        injection h1 with hh hrr
        subst hrr
        split
        · rename_i d r22 h2
          rw [heq2] at h2
          injection h2 with hdd hrr2
          subst hdd
          subst hrr2
          rw [if_pos rfl]
        · rename_i h2
          rw [heq2] at h2
          all_goals simp at h2
      · rename_i hne2
        exact absurd heq (hne2 r1)
  | case3 rest r1 heq b r2 heq2 hb ih =>
    intro n hn
    simp only [List.length_cons] at hn
    match n with
    | n + 1 =>
      have ih2 := ih n (by omega)
      conv_lhs => simp [fixColonSpacingF, heq, heq2, hb, ih2]
      rw [fixColonSpacing, if_pos rfl]
      split
      · rename_i r12 h1
        rw [heq] at h1
        injection h1 with hh hrr
        subst hrr
        split
        · rename_i d r22 h2
          rw [heq2] at h2
          injection h2 with hdd hrr2
          subst hdd
          subst hrr2
          rw [if_neg hb]
        · rename_i h2
          rw [heq2] at h2
          all_goals simp at h2
      · rename_i hne2
        exact absurd heq (hne2 r1)
  | case4 rest r1 heq heq2 ih =>
    intro n hn
    simp only [List.length_cons] at hn
    match n with
    | n + 1 =>
      have ih2 := ih n (by omega)
      conv_lhs => simp [fixColonSpacingF, heq, heq2, ih2]
      rw [fixColonSpacing, if_pos rfl]
      split
      · rename_i r12 h1
        rw [heq] at h1
        injection h1 with hh hrr
        subst hrr
        split
        · rename_i d r22 h2
          rw [heq2] at h2
          all_goals simp at h2
        · rfl
      · rename_i hne2
        exact absurd heq (hne2 r1)
  | case5 rest hne ih =>
    intro n hn
    simp only [List.length_cons] at hn
    match n with
    | n + 1 =>
      have ih2 := ih n (by omega)
      match hdw : rest.dropWhile isWsChar with
      | ':' :: r1 => exact absurd hdw (hne r1)
      | [] =>
        conv_lhs => simp [fixColonSpacingF, hdw, ih2]
        rw [fixColonSpacing, if_pos rfl]
        split
        · rename_i r12 h1
          rw [hdw] at h1
          all_goals simp at h1
        · rfl
      | d :: r1 =>
        have hd : ¬ d = ':' := fun h0 => hne r1 (h0 ▸ hdw)
        conv_lhs => simp [fixColonSpacingF, hdw, hd, ih2]
        rw [fixColonSpacing, if_pos rfl]
        split
        · rename_i r12 h1
          rw [hdw] at h1
          injection h1 with hdd hrr
          exact absurd hdd hd
        · rfl
  | case6 c rest hc ih =>
    intro n hn
    simp only [List.length_cons] at hn
    match n with
    | n + 1 =>
      have ih2 := ih n (by omega)
      conv_lhs => simp [fixColonSpacingF, hc, ih2]
      rw [fixColonSpacing, if_neg hc]

/-- Fuel twin of `fixCommaSpacing`. -/
def fixCommaSpacingF : Nat → Str → Str
  | 0, s => s
  | _ + 1, [] => []
  | fuel + 1, c :: rest =>
    if c = '"' then
      match rest.dropWhile isWsChar with
      | ',' :: r1 =>
        match r1.dropWhile isWsChar with
        | d :: r2 =>
          if d = '"' then '"' :: ',' :: ' ' :: '"' :: fixCommaSpacingF fuel r2
          else '"' :: fixCommaSpacingF fuel rest
        | [] => '"' :: fixCommaSpacingF fuel rest
      | _ => '"' :: fixCommaSpacingF fuel rest
    else c :: fixCommaSpacingF fuel rest

/-- The twin agrees with `fixCommaSpacing` whenever the fuel covers the input
length. -/
theorem fixCommaSpacingF_eq : ∀ (s : Str) (n : Nat), s.length ≤ n →
    fixCommaSpacingF n s = fixCommaSpacing s := by
  intro s
  induction s using fixCommaSpacing.induct with
  | case1 =>
    intro n hn
    match n with
    | 0 => rw [fixCommaSpacing]; rfl
    | n + 1 => rw [fixCommaSpacing]; rfl
  | case2 rest r1 heq r2 heq2 ih =>
    intro n hn
    simp only [List.length_cons] at hn
    have hr2 : r2.length < rest.length := by
      have h1 := length_dropWhile_le isWsChar rest
      have h2 := length_dropWhile_le isWsChar r1
      rw [heq] at h1
      rw [heq2] at h2
      simp only [List.length_cons] at h1 h2
      omega
    match n with
    | n + 1 =>
      have ih2 := ih n (by omega)
      conv_lhs => simp [fixCommaSpacingF, heq, heq2, ih2]
      rw [fixCommaSpacing, if_pos rfl]
      split
      · rename_i r12 h1
        rw [heq] at h1
        injection h1 with hh hrr
        subst hrr
        split
        · rename_i d r22 h2
          rw [heq2] at h2
          injection h2 with hdd hrr2
          subst hdd
          subst hrr2
          rw [if_pos rfl]
        · rename_i h2
          rw [heq2] at h2
          all_goals simp at h2
      · rename_i hne2
        exact absurd heq (hne2 r1)
  | case3 rest r1 heq b r2 heq2 hb ih =>
    intro n hn
    simp only [List.length_cons] at hn
    match n with
    | n + 1 =>
      have ih2 := ih n (by omega)
      conv_lhs => simp [fixCommaSpacingF, heq, heq2, hb, ih2]
      rw [fixCommaSpacing, if_pos rfl]
      split
      · rename_i r12 h1
        rw [heq] at h1
        injection h1 with hh hrr
        subst hrr
        split
        · rename_i d r22 h2
          rw [heq2] at h2
          injection h2 with hdd hrr2
          subst hdd
          subst hrr2
          rw [if_neg hb]
        · rename_i h2
          rw [heq2] at h2
          all_goals simp at h2
      · rename_i hne2
        exact absurd heq (hne2 r1)
  | case4 rest r1 heq heq2 ih =>
    intro n hn
    simp only [List.length_cons] at hn
    match n with
    | n + 1 =>
      have ih2 := ih n (by omega)
      conv_lhs => simp [fixCommaSpacingF, heq, heq2, ih2]
      rw [fixCommaSpacing, if_pos rfl]
      split
      · rename_i r12 h1
        rw [heq] at h1
        injection h1 with hh hrr
        subst hrr
        split
        · rename_i d r22 h2
          rw [heq2] at h2
          all_goals simp at h2
        · rfl
      · rename_i hne2
        exact absurd heq (hne2 r1)
  | case5 rest hne ih =>
    intro n hn
    simp only [List.length_cons] at hn
    match n with
    | n + 1 =>
      have ih2 := ih n (by omega)
      match hdw : rest.dropWhile isWsChar with
      | ',' :: r1 => exact absurd hdw (hne r1)
      | [] =>
        conv_lhs => simp [fixCommaSpacingF, hdw, ih2]
        rw [fixCommaSpacing, if_pos rfl]
        split
        · rename_i r12 h1
          rw [hdw] at h1
          all_goals simp at h1
        · rfl
      | d :: r1 =>
        have hd : ¬ d = ',' := fun h0 => hne r1 (h0 ▸ hdw)
        conv_lhs => simp [fixCommaSpacingF, hdw, hd, ih2]
        rw [fixCommaSpacing, if_pos rfl]
        split
        · rename_i r12 h1
          rw [hdw] at h1
          injection h1 with hdd hrr
          exact absurd hdd hd
        · rfl
  | case6 c rest hc ih =>
    intro n hn
    simp only [List.length_cons] at hn
    match n with
    | n + 1 =>
      have ih2 := ih n (by omega)
      conv_lhs => simp [fixCommaSpacingF, hc, ih2]
      rw [fixCommaSpacing, if_neg hc]

/-- Fuel twin of `collectObjects` (its brace scan `scanToClose` is structural
and needs no twin). -/
def collectObjectsF : Nat → Str → List Str
  | 0, _ => []
  | fuel + 1, s =>
    match s.dropWhile isNotOpenBrace with
    | '{' :: rest =>
      match scanToClose 1 rest with
      | some (body, r) => ('{' :: body) :: collectObjectsF fuel r
      | none => []
    | _ => []

/-- The twin agrees with `collectObjects` whenever the fuel covers the input
length. -/
theorem collectObjectsF_eq : ∀ (s : Str) (n : Nat), s.length ≤ n →
    collectObjectsF n s = collectObjects s := by
  intro s
  induction s using collectObjects.induct with
  | case1 s rest heq body r hscan ih =>
    intro n hn
    have h1 := length_dropWhile_le isNotOpenBrace s
    rw [heq] at h1
    simp only [List.length_cons] at h1
    have hr : r.length < s.length := by
      have h2 := scanToClose_length_lt rest 1 body r hscan
      omega
    obtain ⟨m, rfl⟩ : ∃ m, n = m + 1 := ⟨n - 1, by omega⟩
    have ih2 := ih m (by omega)
    conv_lhs => simp [collectObjectsF, heq, hscan, ih2]
    conv_rhs => rw [collectObjects]
    split
    · rename_i rest2 heq2
      rw [heq] at heq2
      injection heq2 with hh hrr
      subst hrr
      split
      · rename_i body2 r2 hscan2
        rw [hscan] at hscan2
        simp only [Option.some.injEq, Prod.mk.injEq] at hscan2
        obtain ⟨rfl, rfl⟩ := hscan2
        rfl
      · rename_i hscan2
        rw [hscan] at hscan2
        all_goals simp at hscan2
    · rename_i hne2
      exact absurd heq (hne2 rest)
  | case2 s rest heq hscan =>
    intro n hn
    have h1 := length_dropWhile_le isNotOpenBrace s
    rw [heq] at h1
    simp only [List.length_cons] at h1
    obtain ⟨m, rfl⟩ : ∃ m, n = m + 1 := ⟨n - 1, by omega⟩
    conv_lhs => simp [collectObjectsF, heq, hscan]
    conv_rhs => rw [collectObjects]
    split
    · rename_i rest2 heq2
      rw [heq] at heq2
      injection heq2 with hh hrr
      subst hrr
      split
      · rename_i body2 r2 hscan2
        rw [hscan] at hscan2
        all_goals simp at hscan2
      · rfl
    · rename_i hne2
      exact absurd heq (hne2 rest)
  | case3 s hne =>
    intro n hn
    match n with
    | 0 =>
      have hs : s = [] := List.eq_nil_of_length_eq_zero (Nat.le_zero.mp hn)
      subst hs
      rw [collectObjects]
      rfl
    | n + 1 =>
      match hdw : s.dropWhile isNotOpenBrace with
      | '{' :: rest => exact absurd hdw (hne rest)
      | [] =>
        conv_lhs => simp [collectObjectsF, hdw]
        conv_rhs => rw [collectObjects]
        split
        · rename_i rest2 heq2
          rw [hdw] at heq2
          all_goals simp at heq2
        · rfl
      | d :: rest =>
        have hd : ¬ d = '{' := fun h0 => hne rest (h0 ▸ hdw)
        conv_lhs => simp [collectObjectsF, hdw, hd]
        conv_rhs => rw [collectObjects]
        split
        · rename_i rest2 heq2
          rw [hdw] at heq2
          injection heq2 with hdd hrr
          exact absurd hdd hd
        · rfl

/-- Shorthand: a Lean string literal as a JS string. -/
def sl (s : String) : Str := s.toList

/-! ### The extractor (`part_002` lines 31–131; identical body in the second
revision of `src/src/main.js` lines 325–424 up to its `catch`). -/

/-- Lines 100–108: the chain of cleanup substitutions followed by `.trim()`. -/
def repairSubstitutions (s : Str) : Str :=
  jsTrim (fixCommaSpacing (fixColonSpacing (collapseWhitespace (newlinesToSpaces
    (singleQuotesToDouble (quoteBareKeys (stripTrailingCommas s)))))))

/-- Lines 62–96: reconstruct an array from loose top-level objects, or throw
`No valid JSON objects found in response`. -/
def reconstructFromObjects (cleaned : Str) : Except String Str :=
  match collectObjects cleaned with
  | [] => .error "No valid JSON objects found in response"
  | objects => .ok ('[' :: joinComma objects ++ [']'])

/-- Lines 53–97: slice between the first `[` and the last `]` when they exist
in the right order, otherwise reconstruct from loose objects. -/
def sliceOrReconstruct (cleaned : Str) : Except String Str :=
  match indexOfChar '[' cleaned, lastIndexOfChar ']' cleaned with
  | some arrayStart, some arrayEnd =>
    if arrayEnd > arrayStart then .ok (jsSubstring cleaned arrayStart (arrayEnd + 1))
    else reconstructFromObjects cleaned
  | _, _ => reconstructFromObjects cleaned

/-- `extractAndCleanJSON` of `part_002`: trim, strip markdown fences, attempt a
direct parse, otherwise slice/reconstruct and repair; the result must parse as
an array (returned re-serialised, `JSON.stringify(parsed)`).  Every failure is
re-thrown (`part_002` lines 122–130). -/
def extractAndCleanJSON_p2 (text : Str) : Except String Str :=
  let cleaned0 := stripFences (stripJsonFences (jsTrim text))
  match jsonParse cleaned0 with
  | .ok (Json.arr xs) => .ok (stringifyJson (cleaned0.length + 8) (Json.arr xs))
  | _ =>
    match sliceOrReconstruct cleaned0 with
    | .error m => .error m
    | .ok sliced =>
      let repaired := repairSubstitutions sliced
      match jsonParse repaired with
      | .ok (Json.arr xs) => .ok (stringifyJson (repaired.length + 8) (Json.arr xs))
      | .ok _ => .error "Parsed JSON is not an array"
      | .error m => .error m

/-! ### The fallback provider (second revision of `src/src/main.js`,
`createFallbackQuestions`, lines 427–484). -/

/-- The static fallback table (question, answer, tips), copied verbatim. -/
def fallbackQuestionsData : List (Str × Str × List Str) := [
  (sl "Tell me about yourself and your background.",
   sl "Start with a brief overview of your professional background, highlighting key experiences and skills relevant to the role.",
   [sl "Keep it concise (2-3 minutes)", sl "Focus on relevant experiences",
    sl "End with why you're interested in this role"]),
  (sl "What are your greatest strengths?",
   sl "Choose 2-3 strengths that are directly relevant to the job and provide specific examples.",
   [sl "Use concrete examples", sl "Connect to job requirements", sl "Avoid generic answers"]),
  (sl "Where do you see yourself in 5 years?",
   sl "Show ambition while demonstrating commitment to growth within the company and field.",
   [sl "Align with company growth", sl "Show realistic progression", sl "Demonstrate long-term thinking"]),
  (sl "Why are you interested in this role?",
   sl "Connect your skills and interests to the specific role and company mission.",
   [sl "Research the company", sl "Be specific about the role", sl "Show genuine enthusiasm"]),
  (sl "Describe a challenging situation you overcame.",
   sl "Use the STAR method (Situation, Task, Action, Result) to structure your response.",
   [sl "Choose a relevant example", sl "Focus on your actions", sl "Highlight the positive outcome"]),
  (sl "What motivates you in your work?",
   sl "Share what drives you professionally and how it aligns with the role.",
   [sl "Be authentic", sl "Connect to job duties", sl "Show passion for the field"]),
  (sl "How do you handle stress and pressure?",
   sl "Provide concrete examples of stress management techniques you use.",
   [sl "Give specific strategies", sl "Show you can perform under pressure", sl "Mention time management skills"]),
  (sl "What are your salary expectations?",
   sl "Research market rates and provide a range based on your experience and the role.",
   [sl "Research market rates", sl "Provide a reasonable range", sl "Be open to negotiation"]),
  (sl "Do you have any questions for us?",
   sl "Always have thoughtful questions prepared about the role, team, and company.",
   [sl "Ask about growth opportunities", sl "Inquire about team dynamics", sl "Show interest in company culture"]),
  (sl "Why should we hire you?",
   sl "Summarize your key qualifications and how they make you the ideal candidate.",
   [sl "Highlight unique value", sl "Reference specific requirements", sl "Show confidence without arrogance"])]

/-- One fallback entry as the JSON object literal of the source. -/
def fallbackQuestionJson (e : Str × Str × List Str) : Json :=
  Json.obj [(sl "question", .str e.1), (sl "answer", .str e.2.1),
            (sl "tips", .arr (e.2.2.map .str))]

/-- The `fallbackQuestions` array literal as a JSON value. -/
def createFallbackQuestionsJson : Json :=
  .arr (fallbackQuestionsData.map fallbackQuestionJson)

/-- `createFallbackQuestions()` — returns `JSON.stringify(fallbackQuestions)`.
The fallback array literal nests three levels deep (array, object, tips
array), so any depth bound of at least 5 yields `JSON.stringify` exactly. -/
def createFallbackQuestions : Str := stringifyJson 8 createFallbackQuestionsJson

/-- `extractAndCleanJSON` of the second revision of `src/src/main.js`: the same
body as `part_002`, but its `catch` returns the fallback questions string
instead of re-throwing (lines 415–423). -/
def extractAndCleanJSON_v2 (text : Str) : Str :=
  match extractAndCleanJSON_p2 text with
  | .ok s => s
  | .error _ => createFallbackQuestions

/-! ### JavaScript value helpers -/

/-- Association-list lookup for object fields (objects built by this program
never repeat a key). -/
def alookup (fields : List (Str × Json)) (k : Str) : Option Json :=
  match fields with
  | [] => none
  | (k', v) :: rest => if k' = k then some v else alookup rest k

/-- Property access `v.key`: on `null` it throws a TypeError, on an object it
looks the key up, on any other value it yields `undefined` (here `none`). -/
def jsGet (v : Json) (k : Str) : Except String (Option Json) :=
  match v with
  | .null => .error "TypeError: Cannot read properties of null"
  | .obj fs => .ok (alookup fs k)
  | _ => .ok none

/-- JS truthiness of a JSON value. -/
def jsTruthy : Json → Bool
  | .null => false
  | .bool b => b
  | .num n => decide (n ≠ 0)
  | .str s => decide (s ≠ [])
  | .arr _ => true
  | .obj _ => true

/-- Truthiness of a possibly-`undefined` value. -/
def truthyOpt : Option Json → Bool
  | none => false
  | some v => jsTruthy v

mutual

/-- `String(v)` string coercion (arrays join their elements with commas,
`null`/`undefined` elements joining as the empty string). -/
def jsToString : Json → Str
  | .null => sl "null"
  | .bool true => sl "true"
  | .bool false => sl "false"
  | .num n => intRepr n
  | .str s => s
  | .arr xs => jsToStringList xs
  | .obj _ => sl "[object Object]"

/-- `Array.prototype.join(',')` under `String(…)`. -/
def jsToStringList : List Json → Str
  | [] => []
  | [x] => jsToStringElem x
  | x :: y :: rest => jsToStringElem x ++ ',' :: jsToStringList (y :: rest)

/-- One array element under `join`: `null` renders as the empty string. -/
def jsToStringElem : Json → Str
  | .null => []
  | v => jsToString v

end

/-- Whether a (possibly-`undefined`) value is a string. -/
def isStrJson : Option Json → Bool
  | some (.str _) => true
  | _ => false

/-- Whether a (possibly-`undefined`) value is an array (`Array.isArray`). -/
def isArrJson : Option Json → Bool
  | some (.arr _) => true
  | _ => false

/-- The elements of a value known to be an array. -/
def arrElems : Option Json → List Json
  | some (.arr xs) => xs
  | _ => []

/-- The content of a value known to be a string. -/
def strContent : Option Json → Str
  | some (.str s) => s
  | _ => []

/-- Sequence a fallible function over a list (JS `.map` with exceptions:
the first throw aborts). -/
def mapExcept {α β : Type} (f : α → Except String β) : List α → Except String (List β)
  | [] => .ok []
  | x :: rest => do
    let y ← f x
    let ys ← mapExcept f rest
    .ok (y :: ys)

/-! ### The question validator/formatter of each revision -/

/-- A canonical validated question record. -/
structure QuestionRecord where
  id : Nat
  question : Str
  answer : Str
  tips : List Str
deriving DecidableEq, Repr

/-- Coerce a tip to trimmed text:
`typeof tip === 'string' ? tip.trim() : String(tip).trim()`. -/
def coerceTrimTip (tip : Json) : Str :=
  match tip with
  | .str s => jsTrim s
  | v => jsTrim (jsToString v)

/-- `String.prototype.split(' ')` (split on each single space; runs of spaces
produce empty pieces). -/
def splitOnSpace : Str → List Str
  | [] => [[]]
  | c :: rest =>
    if c = ' ' then [] :: splitOnSpace rest
    else
      match splitOnSpace rest with
      | w :: ws => (c :: w) :: ws
      | [] => [[c]]

/-- `Array.prototype.join(' ')`. -/
def joinSpace : List Str → Str
  | [] => []
  | [x] => x
  | x :: y :: rest => x ++ ' ' :: joinSpace (y :: rest)

/-- Tip processing of `part_002` (lines 357–363) and the third
`src/src/main.js` revision (lines 1127–1132): coerce to trimmed text, then
truncate to 8 words with an ellipsis when longer. -/
def processTipRC (tip : Json) : Str :=
  let trimmedTip := coerceTrimTip tip
  if (splitOnSpace trimmedTip).length > 8 then
    joinSpace ((splitOnSpace trimmedTip).take 8) ++ sl "..."
  else trimmedTip

/-- The error message of the `typeof`-checking validators. -/
def invalidFieldMsg (index : Nat) (field : String) : String :=
  "Invalid question at index " ++ toString index ++ ": missing or invalid " ++ field

/-- Shared per-item validation of the second/third `src/src/main.js` revisions
and `part_002` (they differ only in the tip-processing function): `question`
and `answer` must be truthy strings, `tips` a non-empty array; the record gets
`id := index + 1` and trimmed fields. -/
def validateItemWith (tipFn : Json → Str) (index : Nat) (q : Json) :
    Except String QuestionRecord := do
  let qv ← jsGet q (sl "question")
  if ¬ truthyOpt qv ∨ ¬ isStrJson qv then
    throw (invalidFieldMsg index "question field")
  else do
    let av ← jsGet q (sl "answer")
    if ¬ truthyOpt av ∨ ¬ isStrJson av then
      throw (invalidFieldMsg index "answer field")
    else do
      let tv ← jsGet q (sl "tips")
      match tv with
      | some (.arr tips) =>
        if tips.length = 0 then throw (invalidFieldMsg index "tips array")
        else
          .ok { id := index + 1, question := jsTrim (strContent qv),
                answer := jsTrim (strContent av), tips := (tips.take 3).map tipFn }
      | _ => throw (invalidFieldMsg index "tips array")

/-- Per-item validation of the second `src/src/main.js` revision
(lines 711–731): tips are coerced to trimmed text, no truncation. -/
def validateItemRB (index : Nat) (q : Json) : Except String QuestionRecord :=
  validateItemWith coerceTrimTip index q

/-- Per-item validation of `part_002` (lines 340–371) and the third
`src/src/main.js` revision: tips additionally word-truncated. -/
def validateItemP2 (index : Nat) (q : Json) : Except String QuestionRecord :=
  validateItemWith processTipRC index q

/-- `.map((q, index) => …)` with a fallible body, tracking the index. -/
def validateListWith (item : Nat → Json → Except String QuestionRecord) :
    Nat → List Json → Except String (List QuestionRecord)
  | _, [] => .ok []
  | index, q :: rest => do
    let r ← item index q
    let rs ← validateListWith item (index + 1) rest
    .ok (r :: rs)

/-- Lines 733–743 of the second `src/src/main.js` revision:
`while (questions.length < 10)` pad from the fallback table (index
`questions.length % fallbackData.length`), each entry getting
`id := questions.length + 1`. -/
def padQuestionsRB (qs : List QuestionRecord) : List QuestionRecord :=
  if qs.length < 10 then
    let e := fallbackQuestionsData.getD (qs.length % fallbackQuestionsData.length) ([], [], [])
    padQuestionsRB (qs ++ [{ id := qs.length + 1, question := e.1,
                             answer := e.2.1, tips := e.2.2 }])
  else qs
termination_by 10 - qs.length
decreasing_by simp only [List.length_append, List.length_cons, List.length_nil]; omega

/-- The second `src/src/main.js` revision's full validation stage
(lines 711–748): validate `parsedQuestions.slice(0, 10)`, pad to ten from the
fallback table, serve `questions.slice(0, 10)`. -/
def processQuestionsRB (parsedQuestions : List Json) : Except String (List QuestionRecord) := do
  let questions ← validateListWith validateItemRB 0 (parsedQuestions.take 10)
  .ok ((padQuestionsRB questions).take 10)

/-- `part_002`'s full validation stage (lines 340–381, identical in the third
`src/src/main.js` revision): validate `parsedQuestions.slice(0, 10)`, throw
when fewer than ten survive, serve `questions.slice(0, 10)`. -/
def processQuestionsP2 (parsedQuestions : List Json) : Except String (List QuestionRecord) := do
  let questions ← validateListWith validateItemP2 0 (parsedQuestions.take 10)
  if questions.length < 10 then
    throw ("Generated only " ++ toString questions.length ++ " questions, expected 10")
  else .ok (questions.take 10)

/-- `tip.trim()` without coercion (`part_003` line 229, `part_000` line 317):
a non-string tip throws a TypeError. -/
def trimTipStrict (tip : Json) : Except String Str :=
  match tip with
  | .str s => .ok (jsTrim s)
  | _ => .error "TypeError: tip.trim is not a function"

/-- `field.trim()` on a destructured field: TypeError unless it is a string. -/
def jsTrimStrict (v : Option Json) : Except String Str :=
  match v with
  | some (.str s) => .ok (jsTrim s)
  | _ => .error "TypeError: trim is not a function"

/-- Per-item validation of `part_003` (lines 221–231) and `part_000`
(lines 309–319): only truthiness of `question`/`answer` and `Array.isArray`
of `tips` are checked; tips are trimmed without coercion or truncation. -/
def validateItemP3 (index : Nat) (q : Json) : Except String QuestionRecord := do
  let qv ← jsGet q (sl "question")
  let av ← jsGet q (sl "answer")
  let tv ← jsGet q (sl "tips")
  if ¬ truthyOpt qv ∨ ¬ truthyOpt av ∨ ¬ isArrJson tv then
    throw ("Invalid question structure at index " ++ toString index)
  else do
    let question ← jsTrimStrict qv
    let answer ← jsTrimStrict av
    let tips ← mapExcept trimTipStrict ((arrElems tv).take 3)
    .ok { id := index + 1, question := question, answer := answer, tips := tips }

/-- `part_003`'s validation stage (lines 221–231): `slice(0, 10)` and map; no
length check and no padding afterwards. -/
def processQuestionsP3 (parsedQuestions : List Json) : Except String (List QuestionRecord) :=
  validateListWith validateItemP3 0 (parsedQuestions.take 10)

/-! ### The generation orchestrator (`generateWithRetry`, second/third
`src/src/main.js` revisions and `part_002`, with exponential backoff) -/

/-- The outcome of one `model.generateContent` call. -/
inductive ModelOutcome where
  | timeout
  | threw (msg : String)
  | noResponse
  | text (t : Str)
deriving DecidableEq

/-- One attempt of `generateWithRetry`'s `try` block: a rejected call throws
its message, missing `result`/`result.response` throws
`Empty response from AI model`, and empty or whitespace-only response text
throws `Empty response text from AI model`; otherwise the text is returned. -/
def attemptOutcome : ModelOutcome → Except String Str
  | .timeout => .error "AI generation timeout"
  | .threw msg => .error msg
  | .noResponse => .error "Empty response from AI model"
  | .text t => if jsTrim t = [] then .error "Empty response text from AI model" else .ok t

/-- The retry loop of `generateWithRetry`: attempts are numbered
`1..maxRetries` (`attempts n` is the n-th `model.generateContent` outcome); a
failure on the last attempt breaks with that error, earlier failures record it
and retry after the backoff wait. -/
def generateWithRetryGo (attempts : Nat → ModelOutcome) (maxRetries attempt : Nat)
    (lastError : Option String) : Except String Str :=
  if attempt > maxRetries then
    .error (lastError.getD "AI generation failed after all retries")
  else
    match attemptOutcome (attempts attempt) with
    | .ok t => .ok t
    | .error m =>
      if attempt = maxRetries then .error m
      else generateWithRetryGo attempts maxRetries (attempt + 1) (some m)
termination_by maxRetries + 1 - attempt
decreasing_by omega

/-- `generateWithRetry(model, prompt, maxRetries = 3)`. -/
def generateWithRetry (attempts : Nat → ModelOutcome) (maxRetries : Nat) : Except String Str :=
  generateWithRetryGo attempts maxRetries 1 none

/-- The base component of the backoff wait before the next attempt:
`baseWaitTime = Math.pow(2, attempt) * 1000`. -/
def baseWaitTime (attempt : Nat) : ℚ := 2 ^ attempt * 1000

/-- `waitTime = baseWaitTime + jitter` with `jitter = Math.random() * 1000`. -/
def waitTime (attempt : Nat) (jitter : ℚ) : ℚ := baseWaitTime attempt + jitter

/-! ### External collaborators and the HTTP boundary -/

/-- A talent profile document (the fields this program reads). -/
structure Talent where
  docId : Str
  fullname : Str
  careerStage : Str
  selectedPath : Option Str
  skills : List Str
  degrees : List Str
  interests : List Str
  certifications : List Str
deriving DecidableEq, Repr

/-- A career-path document (the fields this program reads). -/
structure CareerPath where
  docId : Str
  title : Str
deriving DecidableEq, Repr

/-- `res.json(body, status)` — the JSON body and the HTTP status code. -/
abbrev HttpResponse := Json × Int

/-- The `QUESTION_CATEGORIES` table. -/
def QUESTION_CATEGORIES : List (Str × Str) := [
  (sl "personal", sl "Personal Background & Motivations"),
  (sl "career", sl "Career Goals & Aspirations"),
  (sl "company", sl "Company & Role Fit"),
  (sl "technical", sl "Technical / Role-Specific Questions"),
  (sl "behavioral", sl "Behavioral Questions (STAR format)"),
  (sl "problem-solving", sl "Problem-Solving & Critical Thinking"),
  (sl "teamwork", sl "Teamwork & Communication")]

/-- Lookup in a string-keyed table (`QUESTION_CATEGORIES[category]`). -/
def tlookup (t : List (Str × Str)) (k : Str) : Option Str :=
  match t with
  | [] => none
  | (k', v) :: rest => if k' = k then some v else tlookup rest k

/-- Object field access after the null-destructuring check (non-objects have
`undefined` fields). -/
def objField (v : Json) (k : Str) : Option Json :=
  match v with
  | .obj fs => alookup fs k
  | _ => none

/-- Truthiness of an optional string field (`if (talent.selectedPath)`). -/
def optStrTruthy : Option Str → Bool
  | some s => decide (s ≠ [])
  | none => false

/-- A validated record as the JSON object sent in the response. -/
def questionRecordJson (r : QuestionRecord) : Json :=
  .obj [(sl "id", .num (r.id : Int)), (sl "question", .str r.question),
        (sl "answer", .str r.answer), (sl "tips", .arr (r.tips.map .str))]

/-- The `metadata.talent` object. -/
def talentMetaJson (t : Talent) : Json :=
  .obj [(sl "id", .str t.docId), (sl "fullname", .str t.fullname),
        (sl "careerStage", .str t.careerStage)]

/-- The `metadata.careerPath` object (or `null`). -/
def careerPathMetaJson : Option CareerPath → Json
  | none => .null
  | some cp => .obj [(sl "id", .str cp.docId), (sl "title", .str cp.title)]

/-- A plain `\x7b success: false, error, statusCode \x7d` response. -/
def plainErrorResponse (msg : String) (code : Int) : HttpResponse :=
  (.obj [(sl "success", .bool false), (sl "error", .str (sl msg)),
         (sl "statusCode", .num code)], code)

/-- The invalid/missing-category 400 response (with `validCategories`). -/
def invalidCategoryResponse : HttpResponse :=
  (.obj [(sl "success", .bool false),
         (sl "error", .str (sl "Invalid or missing category parameter")),
         (sl "validCategories", .arr (QUESTION_CATEGORIES.map (fun p => .str p.1))),
         (sl "statusCode", .num 400)], 400)

/-! ### The second `src/src/main.js` revision's handler (lines 596–814) -/

/-- The environment of one request: request body, database outcomes, the
model-call outcomes, the timestamp and elapsed-time values the response
metadata reports. -/
structure EnvRB where
  body : Str
  talentQuery : Except String (List Talent)
  careerPathDoc : Except String CareerPath
  attempts : Nat → ModelOutcome
  generatedAt : Str
  executionTime : Int

/-- The handler's success response (lines 745–765): exactly the first ten
validated questions, `metadata.totalQuestions` hard-coded to 10, and the
`usedFallback` flag. -/
def successResponseRB (categoryTitle : Str) (talent : Talent)
    (careerPath : Option CareerPath) (questions : List QuestionRecord)
    (usedFallback : Bool) (env : EnvRB) : HttpResponse :=
  (.obj [(sl "success", .bool true), (sl "statusCode", .num 200),
         (sl "questions", .arr (questions.map questionRecordJson)),
         (sl "metadata", .obj [
           (sl "totalQuestions", .num 10),
           (sl "category", .str categoryTitle),
           (sl "talent", talentMetaJson talent),
           (sl "careerPath", careerPathMetaJson careerPath),
           (sl "generatedAt", .str env.generatedAt),
           (sl "executionTime", .num env.executionTime),
           (sl "usedFallback", .bool usedFallback)])], 200)

/-- The `try` body of the second revision's handler (lines 599–768); an
`.error` is an exception reaching the outer catch. -/
def handlerRBTry (env : EnvRB) : Except String HttpResponse :=
  match jsonParse env.body with
  | .error _ => .ok (plainErrorResponse "Invalid JSON input" 400)
  | .ok requestData =>
    match requestData with
    | .null => .error "TypeError: Cannot destructure property 'talentId' of null"
    | _ =>
      if ¬ truthyOpt (objField requestData (sl "talentId")) then
        .ok (plainErrorResponse "Missing talentId parameter" 400)
      else
        let category := objField requestData (sl "category")
        if ¬ truthyOpt category then .ok invalidCategoryResponse
        else
          match tlookup QUESTION_CATEGORIES (jsToString (category.getD .null)) with
          | none => .ok invalidCategoryResponse
          | some categoryTitle =>
            match env.talentQuery with
            | .error _ =>
              .ok (plainErrorResponse "Database error: Could not fetch talent" 500)
            | .ok [] => .ok (plainErrorResponse "Talent not found" 404)
            | .ok (talent :: _) =>
              -- career-path lookup failure is absorbed (lines 648–660)
              let careerPath : Option CareerPath :=
                if optStrTruthy talent.selectedPath then
                  match env.careerPathDoc with
                  | .ok cp => some cp
                  | .error _ => none
                else none
              -- generation with retry; on failure the fallback text is used
              let (responseText, usedFallback) :=
                match generateWithRetry env.attempts 3 with
                | .ok t => (t, false)
                | .error _ => (createFallbackQuestions, true)
              -- extract + parse, with its own catch substituting the fallback
              let parseAttempt : Except String (List Json) :=
                match jsonParse (extractAndCleanJSON_v2 responseText) with
                | .ok (.arr xs) => .ok xs
                | .ok _ => .error "Response is not an array"
                | .error m => .error m
              let step : Except String (List Json × Bool) :=
                match parseAttempt with
                | .ok xs => .ok (xs, usedFallback)
                | .error _ =>
                  match jsonParse createFallbackQuestions with
                  | .ok (.arr xs) => .ok (xs, true)
                  | .ok _ => .error "TypeError: parsedQuestions.slice is not a function"
                  | .error m => .error m
              match step with
              | .error m => .error m
              | .ok (parsedQuestions, usedFallback) =>
                match processQuestionsRB parsedQuestions with
                | .error m => .error m
                | .ok questions =>
                  .ok (successResponseRB categoryTitle talent careerPath questions
                        usedFallback env)

/-- The exported handler of the second `src/src/main.js` revision.  Its outer
catch (lines 770–813) attempts to build a full fallback response, but that
construction reads `requestData` — a `let` binding scoped to the `try` block
and not visible in the catch — so `QUESTION_CATEGORIES[requestData?.category]`
throws a ReferenceError, and the inner catch (lines 804–812) returns the
`Critical failure` 500 response. -/
def handlerRB (env : EnvRB) : HttpResponse :=
  match handlerRBTry env with
  | .ok resp => resp
  | .error msg =>
    (.obj [(sl "success", .bool false),
           (sl "error", .str (sl ("Critical failure: " ++ msg))),
           (sl "statusCode", .num 500),
           (sl "executionTime", .num env.executionTime)], 500)

/-! ### The root `src/main.js` handler (`R0`) -/

/-- `.replace(/```json\n?/g, '')` of `src/main.js` line 141 (case-sensitive,
at most one newline consumed). -/
def stripJsonFencesNl : Str → Str
  | '`' :: '`' :: '`' :: 'j' :: 's' :: 'o' :: 'n' :: '\n' :: rest => stripJsonFencesNl rest
  | '`' :: '`' :: '`' :: 'j' :: 's' :: 'o' :: 'n' :: rest => stripJsonFencesNl rest
  | c :: rest => c :: stripJsonFencesNl rest
  | [] => []

/-- `.replace(/```\n?/g, '')` of `src/main.js` line 141. -/
def stripFencesNl : Str → Str
  | '`' :: '`' :: '`' :: '\n' :: rest => stripFencesNl rest
  | '`' :: '`' :: '`' :: rest => stripFencesNl rest
  | c :: rest => c :: stripFencesNl rest
  | [] => []

/-- One step of `spreadGo`: overwrite key `k` in place. -/
def overwriteField (base : List (Str × Json)) (k : Str) (v : Json) : List (Str × Json) :=
  base.map (fun p => if p.1 = k then (p.1, v) else p)

/-- JS object spread `\x7b …defaults, ...q \x7d`: `q`'s fields overwrite the
defaults in place, new fields append in order.  (Only object spreads are
exercised by this program's data; spreading a primitive is modelled as
contributing no fields.) -/
def spreadGo (base : List (Str × Json)) : List (Str × Json) → List (Str × Json)
  | [] => base
  | (k, v) :: rest =>
    if (alookup base k).isSome then spreadGo (overwriteField base k v) rest
    else spreadGo (base ++ [(k, v)]) rest

/-- `src/main.js` lines 161–167: per-question defaults merged under `...q`.
A `null` element throws a TypeError (caught by the surrounding AI catch). -/
def mergeQuestionDefaultsR0 (q : Json) : Except String Json :=
  match q with
  | .null => .error "TypeError: Cannot read properties of null"
  | _ =>
    let orDefault := fun (k : Str) (d : String) =>
      match objField q k with
      | some v => if jsTruthy v then v else Json.str (sl d)
      | none => Json.str (sl d)
    let base := [(sl "question", orDefault (sl "question") "Sample interview question"),
                 (sl "answer", orDefault (sl "answer") "Sample answer for the question"),
                 (sl "category", orDefault (sl "category") "behavioral"),
                 (sl "difficulty", orDefault (sl "difficulty") "medium")]
    match q with
    | .obj fs => .ok (.obj (spreadGo base fs))
    | _ => .ok (.obj base)

/-- The environment of one request to the root handler. -/
structure EnvR0 where
  body : Str
  talentDoc : Except String Talent
  careerPathDoc : Except String CareerPath
  modelCall : ModelOutcome
  generatedAt : Str

/-- The root handler's AI-generation section (lines 91–194): build the prompt,
call the model, strip fences, parse, and map in defaults; parse failures get
their own 500 response carrying `rawResponse`. -/
def generationSectionR0 (env : EnvR0) (talent : Talent)
    (careerPath : Option CareerPath) : HttpResponse :=
  let attempt : Except String HttpResponse :=
    match env.modelCall with
    | .timeout => .error "AI generation timeout"
    | .threw m => .error m
    | .noResponse => .error "TypeError: Cannot read properties of undefined"
    | .text responseText =>
      let cleanedResponse := jsTrim (stripFencesNl (stripJsonFencesNl responseText))
      let parsed : Except String (List Json) :=
        match jsonParse cleanedResponse with
        | .ok (.arr (q :: qs)) => .ok (q :: qs)
        | .ok _ => .error "Empty questions array"
        | .error m => .error m
      match parsed with
      | .error _ =>
        .ok (.obj [(sl "success", .bool false),
                   (sl "error", .str (sl "Failed to parse AI response")),
                   (sl "rawResponse", .str responseText),
                   (sl "statusCode", .num 500)], 500)
      | .ok questions =>
        match mapExcept mergeQuestionDefaultsR0 questions with
        | .error m => .error m
        | .ok mapped =>
          .ok (.obj [(sl "success", .bool true), (sl "statusCode", .num 200),
                     (sl "questions", .arr mapped),
                     (sl "talent", talentMetaJson talent),
                     (sl "careerPath", careerPathMetaJson careerPath),
                     (sl "metadata", .obj [
                       (sl "totalQuestions", .num (questions.length : Int)),
                       (sl "careerStage", .str talent.careerStage),
                       (sl "generatedAt", .str env.generatedAt)])], 200)
  match attempt with
  | .ok resp => resp
  | .error _ => plainErrorResponse "Failed to generate interview questions" 500

/-- The `try` body of the root handler (lines 24–194). -/
def handlerR0Try (env : EnvR0) : Except String HttpResponse :=
  match jsonParse env.body with
  | .error _ => .ok (plainErrorResponse "Invalid JSON input" 400)
  | .ok requestData =>
    match requestData with
    | .null => .error "TypeError: Cannot destructure property 'talentId' of null"
    | _ =>
      if ¬ truthyOpt (objField requestData (sl "talentId")) then
        .ok (plainErrorResponse "Missing talentId parameter" 400)
      else
        match env.talentDoc with
        | .error _ => .ok (plainErrorResponse "Talent not found" 404)
        | .ok talent =>
          -- lines 70–88: a career-path lookup failure is NOT absorbed here —
          -- the catch returns a 404 response
          let pathStep : Except String (Option CareerPath) :=
            if optStrTruthy talent.selectedPath then
              match env.careerPathDoc with
              | .ok cp => .ok (some cp)
              | .error m => .error m
            else .ok none
          match pathStep with
          | .error _ => .ok (plainErrorResponse "Career path not found" 404)
          | .ok careerPath => .ok (generationSectionR0 env talent careerPath)

/-- The exported handler of `src/main.js`. -/
def handlerR0 (env : EnvR0) : HttpResponse :=
  match handlerR0Try env with
  | .ok resp => resp
  | .error _ => plainErrorResponse "Internal server error" 500

/-! ### `part_000` (`P0`): its extractor and handler -/

/-- `.replace(/```json\s*/g, '')` — case-sensitive variant (`part_000`
line 37). -/
def stripJsonFencesCS : Str → Str
  | '`' :: '`' :: '`' :: 'j' :: 's' :: 'o' :: 'n' :: rest =>
    stripJsonFencesCS (rest.dropWhile isWsChar)
  | c :: rest => c :: stripJsonFencesCS rest
  | [] => []
termination_by s => s.length
decreasing_by
  · have := IQ.length_dropWhile_le isWsChar rest
    simp only [List.length_cons]
    omega
  · simp only [List.length_cons]; omega

/-- `\w` of the `([{,]\s*)(\w+):/g` key pattern (`part_000` line 91 et al.). -/
def isWordChar (c : Char) : Bool :=
  (c.isUpper || c.isLower) || c.isDigit || c == '_'

/-- `.replace(/([{,]\s*)(\w+):/g, '$1"$2":')` — the earlier revisions' key
pattern: `\w+` directly followed by the colon (no whitespace allowed). -/
def quoteBareKeysW : Str → Str
  | [] => []
  | c :: rest =>
    if c = '{' ∨ c = ',' then
      match h : (rest.dropWhile isWsChar).dropWhile isWordChar with
      | ':' :: r4 =>
        match (rest.dropWhile isWsChar).takeWhile isWordChar with
        | [] => c :: quoteBareKeysW rest
        | i0 :: irest =>
          c :: rest.takeWhile isWsChar ++ '"' :: (i0 :: irest) ++ '"' :: ':' :: quoteBareKeysW r4
      | _ => c :: quoteBareKeysW rest
    else c :: quoteBareKeysW rest
termination_by s => s.length
decreasing_by
  all_goals simp only [List.length_cons]
  all_goals try omega
  have h1 := IQ.length_dropWhile_le isWordChar (rest.dropWhile isWsChar)
  have h2 := IQ.length_dropWhile_le isWsChar rest
  rw [h] at h1
  simp only [List.length_cons] at h1
  omega

/-- Lines 89–95 of `part_000`: the earlier revisions' cleanup chain (no
colon/comma spacing passes) and `.trim()`. -/
def repairSubstitutionsV0 (s : Str) : Str :=
  jsTrim (collapseWhitespace (newlinesToSpaces
    (singleQuotesToDouble (quoteBareKeysW (stripTrailingCommas s)))))

/-- Characters other than braces (`[^{}]`). -/
def isNonBrace (c : Char) : Bool := ¬ (c = '{' ∨ c = '}')

/-- The object regex `\{[^{}]*(?:\{[^{}]*\}[^{}]*)*\}` of `part_000` line 64,
matched after the opening brace: a run of non-braces, then any number of
`{non-braces}` groups each followed by a run of non-braces, then the close. -/
def objPatLoop (s : Str) : Option (Str × Str) :=
  match h : s.dropWhile isNonBrace with
  | '}' :: r => some (s.takeWhile isNonBrace ++ ['}'], r)
  | '{' :: r =>
    match h2 : r.dropWhile isNonBrace with
    | '}' :: r2 =>
      match objPatLoop r2 with
      | some (t, rr) =>
        some (s.takeWhile isNonBrace ++ '{' :: r.takeWhile isNonBrace ++ '}' :: t, rr)
      | none => none
    | _ => none
  | _ => none
termination_by s.length
decreasing_by
  have ha := IQ.length_dropWhile_le isNonBrace s
  have hb := IQ.length_dropWhile_le isNonBrace r
  rw [h] at ha
  rw [h2] at hb
  simp only [List.length_cons] at ha hb
  omega

/-- A successful object-pattern match consumes at least one character
(fuel-indexed strong induction). -/
theorem objPatLoop_len : ∀ (n : Nat) (s t r : Str), s.length ≤ n →
    objPatLoop s = some (t, r) → r.length < s.length := by
  intro n
  induction n with
  | zero =>
    intro s t r hle hm
    have hs : s = [] := by
      cases s with
      | nil => rfl
      | cons c cs => simp at hle
    subst hs
    rw [objPatLoop] at hm
    simp [List.dropWhile] at hm
  | succ n ih =>
    intro s t r hle hm
    rw [objPatLoop] at hm
    split at hm
    · rename_i r0 heq
      simp only [Option.some.injEq, Prod.mk.injEq] at hm
      obtain ⟨_, rfl⟩ := hm
      have ha := IQ.length_dropWhile_le isNonBrace s
      rw [heq] at ha
      simp only [List.length_cons] at ha
      omega
    · rename_i r0 heq
      split at hm
      · rename_i r2 heq2
        split at hm
        · rename_i t0 rr0 hrec
          simp only [Option.some.injEq, Prod.mk.injEq] at hm
          obtain ⟨_, hr⟩ := hm
          subst hr
          have ha := IQ.length_dropWhile_le isNonBrace s
          have hb := IQ.length_dropWhile_le isNonBrace r0
          rw [heq] at ha
          rw [heq2] at hb
          simp only [List.length_cons] at ha hb
          have hc := ih r2 t0 rr0 (by omega) hrec
          omega
        · exact absurd hm (by simp)
      · exact absurd hm (by simp)
    · exact absurd hm (by simp)

/-- The remainder bound in the form the recursion below needs. -/
theorem objPatLoop_length_lt (s t r : Str) (h : objPatLoop s = some (t, r)) :
    r.length < s.length :=
  objPatLoop_len s.length s t r (Nat.le_refl _) h

/-- `objectContent.match(objectPattern)`: all matches of the object regex. -/
def objPatternMatches : Str → List Str
  | [] => []
  | c :: rest =>
    if c = '{' then
      match h : objPatLoop rest with
      | some (t, r) => ('{' :: t) :: objPatternMatches r
      | none => objPatternMatches rest
    else objPatternMatches rest
termination_by s => s.length
decreasing_by
  · have := objPatLoop_length_lt rest t r h
    simp only [List.length_cons]
    omega
  all_goals simp only [List.length_cons]; omega

/-- `extractAndCleanJSON` of `part_000` (lines 31–113): fences and trim, array
boundary slice with repair, or an object branch (single parse, then the object
regex); every thrown message is wrapped as `Failed to clean JSON: …`. -/
def extractAndCleanJSON_v0 (text : Str) : Except String Str :=
  let cleaned := jsTrim (stripFences (stripJsonFencesCS text))
  match indexOfChar '[' cleaned, lastIndexOfChar ']' cleaned with
  | some s, some l =>
    if s ≥ l then .error "Failed to clean JSON: Invalid JSON array structure"
    else
      let repaired := repairSubstitutionsV0 (jsSubstring cleaned s (l + 1))
      match jsonParse repaired with
      | .ok (.arr xs) => .ok (stringifyJson (repaired.length + 8) (.arr xs))
      | .ok _ => .error "Failed to clean JSON: Parsed JSON is not an array"
      | .error m => .error ("Failed to clean JSON: " ++ m)
  | _, _ =>
    match indexOfChar '{' cleaned, lastIndexOfChar '}' cleaned with
    | some os, some oe =>
      let objectContent := jsSubstring cleaned os (oe + 1)
      match jsonParse objectContent with
      | .ok singleObject => .ok (stringifyJson (objectContent.length + 8) (.arr [singleObject]))
      | .error _ =>
        match objPatternMatches objectContent with
        | [] => .error "Failed to clean JSON: No valid JSON structure found in response"
        | objs =>
          match mapExcept jsonParse objs with
          | .ok parsedObjects => .ok (stringifyJson (objectContent.length + 8) (.arr parsedObjects))
          | .error _ => .error "Failed to clean JSON: No valid JSON structure found in response"
    | _, _ => .error "Failed to clean JSON: No valid JSON structure found in response"

/-- `generateWithTimeout` of `part_000` (lines 177–206): the timer rejection,
the missing-response and empty-text rejections, and wrapped model errors. -/
def generateWithTimeoutP0 : ModelOutcome → Except String Str
  | .timeout => .error "AI generation timeout - request took too long"
  | .threw m => .error ("AI generation failed: " ++ m)
  | .noResponse => .error "Empty response from AI model"
  | .text t => if jsTrim t = [] then .error "Empty response text from AI model" else .ok t

/-- The environment of one request to `part_000`'s handler.  `dbSlow` models
`Date.now() - startTime > 3000` at the post-lookup budget check. -/
structure EnvP0 where
  body : Str
  talentQuery : Except String (List Talent)
  careerPathDoc : Except String CareerPath
  modelCall : ModelOutcome
  dbSlow : Bool
  generatedAt : Str
  executionTime : Int

/-- `part_000`'s AI-generation section (lines 279–358): generate with timeout,
extract, parse, validate, and answer 200; any exception in it becomes the 500
`Failed to generate interview questions` response. -/
def generationSectionP0 (env : EnvP0) (categoryTitle : Str) (talent : Talent)
    (careerPath : Option CareerPath) : HttpResponse :=
  let attempt : Except String HttpResponse :=
    match generateWithTimeoutP0 env.modelCall with
    | .error m => .error m
    | .ok responseText =>
      match extractAndCleanJSON_v0 responseText with
      | .error m => .error m
      | .ok cleanedJson =>
        match jsonParse cleanedJson with
        | .error m => .error m
        | .ok parsed =>
          match parsed with
          | .arr (q :: qs) =>
            match processQuestionsP3 (q :: qs) with
            | .error m => .error m
            | .ok questions =>
              .ok (.obj [(sl "success", .bool true), (sl "statusCode", .num 200),
                         (sl "questions", .arr (questions.map questionRecordJson)),
                         (sl "metadata", .obj [
                           (sl "totalQuestions", .num (questions.length : Int)),
                           (sl "category", .str categoryTitle),
                           (sl "talent", talentMetaJson talent),
                           (sl "careerPath", careerPathMetaJson careerPath),
                           (sl "generatedAt", .str env.generatedAt),
                           (sl "executionTime", .num env.executionTime),
                           (sl "usedFallback", .bool false)])], 200)
          | _ => .error "Invalid questions array from AI"
  match attempt with
  | .ok resp => resp
  | .error m =>
    (.obj [(sl "success", .bool false),
           (sl "error", .str (sl ("Failed to generate interview questions: " ++ m))),
           (sl "statusCode", .num 500),
           (sl "executionTime", .num env.executionTime)], 500)

/-- The `try` body of `part_000`'s handler (lines 211–358). -/
def handlerP0Try (env : EnvP0) : Except String HttpResponse :=
  match jsonParse env.body with
  | .error _ => .ok (plainErrorResponse "Invalid JSON input" 400)
  | .ok requestData =>
    match requestData with
    | .null => .error "TypeError: Cannot destructure property 'talentId' of null"
    | _ =>
      if ¬ truthyOpt (objField requestData (sl "talentId")) then
        .ok (plainErrorResponse "Missing talentId parameter" 400)
      else
        let category := objField requestData (sl "category")
        if ¬ truthyOpt category then .ok invalidCategoryResponse
        else
          match tlookup QUESTION_CATEGORIES (jsToString (category.getD .null)) with
          | none => .ok invalidCategoryResponse
          | some categoryTitle =>
            match env.talentQuery with
            | .error _ => .ok (plainErrorResponse "Talent not found" 404)
            | .ok [] => .ok (plainErrorResponse "Talent not found" 404)
            | .ok (talent :: _) =>
              if env.dbSlow then
                .ok (plainErrorResponse "Function timeout - database queries took too long" 408)
              else
                let careerPath : Option CareerPath :=
                  if optStrTruthy talent.selectedPath then
                    match env.careerPathDoc with
                    | .ok cp => some cp
                    | .error _ => none
                  else none
                .ok (generationSectionP0 env categoryTitle talent careerPath)

/-- The exported handler of `part_000`; the outer catch (lines 360–368)
returns the 500 `Internal server error` response. -/
def handlerP0 (env : EnvP0) : HttpResponse :=
  match handlerP0Try env with
  | .ok resp => resp
  | .error _ =>
    (.obj [(sl "success", .bool false),
           (sl "error", .str (sl "Internal server error")),
           (sl "statusCode", .num 500),
           (sl "executionTime", .num env.executionTime)], 500)

/-! ### Supporting lemmas about the retry loop -/

/-- A successful attempt never carries empty or whitespace-only text. -/
theorem attemptOutcome_ok_trim (mo : ModelOutcome) (t : Str)
    (h : attemptOutcome mo = .ok t) : jsTrim t ≠ [] := by
  cases mo with
  | timeout => simp [attemptOutcome] at h
  | threw m => simp [attemptOutcome] at h
  | noResponse => simp [attemptOutcome] at h
  | text u =>
    simp only [attemptOutcome] at h
    split at h
    · simp at h
    · simp only [Except.ok.injEq] at h
      subst h
      assumption

/-- Any text the retry loop returns has non-empty trimmed content. -/
theorem generateWithRetryGo_ok_trim : ∀ (fuel : Nat) (attempts : Nat → ModelOutcome)
    (maxRetries attempt : Nat) (lastError : Option String) (t : Str),
    maxRetries + 1 - attempt ≤ fuel →
    generateWithRetryGo attempts maxRetries attempt lastError = .ok t →
    jsTrim t ≠ [] := by
  intro fuel
  induction fuel with
  | zero =>
    intro attempts maxRetries attempt lastError t hle h
    rw [generateWithRetryGo] at h
    split at h
    · simp at h
    · rename_i hgt
      split at h
      · rename_i u hu
        simp only [Except.ok.injEq] at h
        subst h
        exact attemptOutcome_ok_trim _ _ hu
      · split at h <;> simp_all <;> omega
  | succ n ih =>
    intro attempts maxRetries attempt lastError t hle h
    rw [generateWithRetryGo] at h
    split at h
    · simp at h
    · rename_i hgt
      split at h
      · rename_i u hu
        simp only [Except.ok.injEq] at h
        subst h
        exact attemptOutcome_ok_trim _ _ hu
      · rename_i m hm
        split at h
        · simp at h
        · rename_i hne
          exact ih attempts maxRetries (attempt + 1) (some m) t (by omega) h

/-! ### Claim C6 -/

/-- C6, amended: in `generateWithRetry` of the second `src/src/main.js`
revision (cited lines 566–569), a generation attempt whose model response
text is empty or whitespace-only is recorded as an attempt failure
(`Empty response text from AI model`), and the Orchestrator proceeds to the
next attempt of the retry loop; moreover any text the loop hands to its
caller (and hence to the Extractor) has non-empty trimmed content, so there
the empty text is never forwarded to the Extractor.  (The also-cited first
revision's `generateWithTimeout` has no such check; see the
counterexample.) -/
theorem empty_text_is_attempt_failure (attempts : Nat → ModelOutcome)
    (maxRetries attempt : Nat) (lastError : Option String) (t : Str)
    (hmo : attempts attempt = .text t) (hempty : jsTrim t = [])
    (hlt : attempt < maxRetries) :
    generateWithRetryGo attempts maxRetries attempt lastError
      = generateWithRetryGo attempts maxRetries (attempt + 1)
          (some "Empty response text from AI model") ∧
    (∀ u, generateWithRetry attempts maxRetries = .ok u → jsTrim u ≠ []) := by
  constructor
  · rw [generateWithRetryGo]
    have h1 : ¬ attempt > maxRetries := by omega
    have h2 : attemptOutcome (attempts attempt) = .error "Empty response text from AI model" := by
      rw [hmo]
      unfold attemptOutcome
      simp [hempty]
    rw [if_neg h1, h2]
    have h3 : ¬ attempt = maxRetries := by omega
    simp [h3]
  · intro u hu
    exact generateWithRetryGo_ok_trim maxRetries attempts maxRetries 1 none u (by omega) hu

/-- Witness for C6 at a concrete oracle whose first attempt returns a
whitespace-only text. -/
theorem empty_text_is_attempt_failure_witness :
    (generateWithRetryGo
        (fun n => if n = 1 then ModelOutcome.text (sl " ") else ModelOutcome.text (sl "ok")) 3 1 none
      = generateWithRetryGo
          (fun n => if n = 1 then ModelOutcome.text (sl " ") else ModelOutcome.text (sl "ok")) 3 2
          (some "Empty response text from AI model")) ∧
    (∀ u, generateWithRetry
        (fun n => if n = 1 then ModelOutcome.text (sl " ") else ModelOutcome.text (sl "ok")) 3
        = .ok u → jsTrim u ≠ []) :=
  empty_text_is_attempt_failure
    (fun n => if n = 1 then ModelOutcome.text (sl " ") else ModelOutcome.text (sl "ok"))
    3 1 none (sl " ") (by decide) (by decide) (by decide)

/-! ### Claim C9 -/

/-- C9: in the Orchestrator's retry loop, the delay computed before the next
attempt has a base component `baseWaitTime attempt = 2^attempt · 1000` that is
non-decreasing in the attempt number across attempts `1..maxAttempts`, plus a
random jitter component (`Math.random() * 1000`, so in `[0, 1000)`) bounded
by 1000 ms. -/
theorem backoff_base_monotone_jitter_bounded :
    (∀ a b : Nat, 1 ≤ a → a ≤ b → baseWaitTime a ≤ baseWaitTime b) ∧
    (∀ (attempt : Nat) (jitter : ℚ), 0 ≤ jitter → jitter < 1000 →
      waitTime attempt jitter - baseWaitTime attempt = jitter ∧
      baseWaitTime attempt ≤ waitTime attempt jitter ∧
      waitTime attempt jitter < baseWaitTime attempt + 1000) := by
  constructor
  · intro a b _ hab
    unfold baseWaitTime
    have h2 : (2:ℚ) ^ a ≤ 2 ^ b := by
      apply pow_le_pow_right₀ (by norm_num) hab
    nlinarith
  · intro attempt j h0 h1
    unfold waitTime
    refine ⟨by ring, by linarith, by linarith⟩

/-- Witness for C9 at attempts 1 ≤ 3 and jitter 500 ms. -/
theorem backoff_base_monotone_jitter_bounded_witness :
    baseWaitTime 1 ≤ baseWaitTime 3 ∧
    waitTime 2 500 - baseWaitTime 2 = 500 ∧
    waitTime 2 500 < baseWaitTime 2 + 1000 :=
  ⟨backoff_base_monotone_jitter_bounded.1 1 3 (by norm_num) (by norm_num),
   (backoff_base_monotone_jitter_bounded.2 2 500 (by norm_num) (by norm_num)).1,
   (backoff_base_monotone_jitter_bounded.2 2 500 (by norm_num) (by norm_num)).2.2⟩

/-! ### Supporting lemmas about the validators -/

/-- Away from `null`, property access is total and agrees with `objField`. -/
theorem jsGet_eq (q : Json) (k : Str) (h : q ≠ .null) : jsGet q k = .ok (objField q k) := by
  cases q <;> simp_all [jsGet, objField]

/-- A record accepted by the shared validator gets its tips from the item's
`tips` array: the first three entries under the revision's tip function, and
the next sequential id. -/
theorem validateItemWith_ok_tips (tipFn : Json → Str) (index : Nat) (q : Json)
    (rec : QuestionRecord) (h : validateItemWith tipFn index q = .ok rec) :
    ∃ tips : List Json, objField q (sl "tips") = some (.arr tips) ∧ tips ≠ [] ∧
      rec.tips = (tips.take 3).map tipFn ∧ rec.id = index + 1 := by
  by_cases hq : q = .null
  · subst hq
    simp [validateItemWith, jsGet, Bind.bind, Except.bind] at h
  · unfold validateItemWith at h
    simp only [jsGet_eq q _ hq, Bind.bind, Except.bind] at h
    split at h
    · simp [throw, throwThe, MonadExceptOf.throw] at h
    · split at h
      · simp [throw, throwThe, MonadExceptOf.throw] at h
      · split at h
        · rename_i tips heq
          split at h
          · simp [throw, throwThe, MonadExceptOf.throw] at h
          · rename_i hne
            simp only [Except.ok.injEq] at h
            subst h
            exact ⟨tips, heq, by simpa using hne, rfl, rfl⟩
        · simp [throw, throwThe, MonadExceptOf.throw] at h

/-! ### Claim C8 -/

/-- C8 counterexample: `part_003`'s validator (cited by the claim) accepts a
nine-word tip unchanged — no word-count truncation and no ellipsis marker —
although nine words exceed the configured eight-word ceiling of the claim's
other cited validator. -/
theorem tips_kept_untruncated_P3 :
    validateItemP3 0 (Json.obj [(sl "question", .str (sl "Q")), (sl "answer", .str (sl "A")),
      (sl "tips", .arr [.str (sl "one two three four five six seven eight nine")])])
    = .ok { id := 1, question := sl "Q", answer := sl "A",
            tips := [sl "one two three four five six seven eight nine"] } ∧
    (splitOnSpace (sl "one two three four five six seven eight nine")).length > 8 := by
  constructor
  · rfl
  · decide

/-- C8 (amended to the validators of `part_002` and the third `src/src/main.js`
revision): every validated record's tips field has at most 3 entries; each
entry is the tip function applied to a source tip; and the tip function
coerces a tip to trimmed text and, exactly when its word count exceeds the
eight-word ceiling, truncates it to eight words with an ellipsis appended
instead of rejecting it. -/
theorem tips_coerced_and_truncated_P2 (index : Nat) (q : Json) (rec : QuestionRecord)
    (h : validateItemP2 index q = .ok rec) :
    rec.tips.length ≤ 3 ∧
    (∀ t ∈ rec.tips, ∃ tip : Json, t = processTipRC tip) ∧
    (∀ tip : Json,
      ((splitOnSpace (coerceTrimTip tip)).length ≤ 8 →
        processTipRC tip = coerceTrimTip tip) ∧
      ((splitOnSpace (coerceTrimTip tip)).length > 8 →
        processTipRC tip =
          joinSpace ((splitOnSpace (coerceTrimTip tip)).take 8) ++ sl "...")) := by
  obtain ⟨tips, _, _, htips, _⟩ := validateItemWith_ok_tips processTipRC index q rec h
  refine ⟨?_, ?_, ?_⟩
  · rw [htips]
    simp only [List.length_map]
    have := List.length_take_le 3 tips
    omega
  · intro t ht
    rw [htips] at ht
    obtain ⟨tip, _, rfl⟩ := List.mem_map.mp ht
    exact ⟨tip, rfl⟩
  · intro tip
    constructor
    · intro hle
      unfold processTipRC
      simp only []
      split
      · omega
      · rfl
    · intro hgt
      unfold processTipRC
      simp only []
      split
      · rfl
      · omega

/-- Witness for C8's amended theorem: a concrete item whose ten-word tip is
truncated to eight words with the ellipsis. -/
theorem tips_coerced_and_truncated_P2_witness :
    (validateItemP2 0 (Json.obj [(sl "question", .str (sl "Q")), (sl "answer", .str (sl "A")),
        (sl "tips", .arr [.str (sl "a b c d e f g h i j")])])
      = .ok { id := 1, question := sl "Q", answer := sl "A",
              tips := [sl "a b c d e f g h..."] }) ∧
    ([sl "a b c d e f g h..."].length ≤ 3 ∧
     (∀ t ∈ [sl "a b c d e f g h..."], ∃ tip : Json, t = processTipRC tip) ∧
     (∀ tip : Json,
       ((splitOnSpace (coerceTrimTip tip)).length ≤ 8 →
         processTipRC tip = coerceTrimTip tip) ∧
       ((splitOnSpace (coerceTrimTip tip)).length > 8 →
         processTipRC tip =
           joinSpace ((splitOnSpace (coerceTrimTip tip)).take 8) ++ sl "..."))) :=
  ⟨rfl, tips_coerced_and_truncated_P2 0
    (Json.obj [(sl "question", .str (sl "Q")), (sl "answer", .str (sl "A")),
        (sl "tips", .arr [.str (sl "a b c d e f g h i j")])])
    { id := 1, question := sl "Q", answer := sl "A", tips := [sl "a b c d e f g h..."] }
    rfl⟩

/-! ### Well-formed items and the validators' behaviour on them -/

/-- An item that passes the `typeof`-checking validators structurally:
an object whose `question`/`answer` are truthy strings and whose `tips` is a
non-empty array. -/
def wellFormedItemB (q : Json) : Bool :=
  match q with
  | .obj _ =>
    truthyOpt (objField q (sl "question")) && isStrJson (objField q (sl "question")) &&
    (truthyOpt (objField q (sl "answer")) && isStrJson (objField q (sl "answer"))) &&
    (match objField q (sl "tips") with
     | some (.arr tips) => decide (tips.length ≠ 0)
     | _ => false)
  | _ => false

/-- The record the shared validator produces for a well-formed item at a given
index. -/
def formatItemWith (tipFn : Json → Str) (index : Nat) (q : Json) : QuestionRecord :=
  { id := index + 1,
    question := jsTrim (strContent (objField q (sl "question"))),
    answer := jsTrim (strContent (objField q (sl "answer"))),
    tips := ((arrElems (objField q (sl "tips"))).take 3).map tipFn }

/-- On a well-formed item the shared validator succeeds with the formatted
record. -/
theorem validateItemWith_wf (tipFn : Json → Str) (index : Nat) (q : Json)
    (hwf : wellFormedItemB q = true) :
    validateItemWith tipFn index q = .ok (formatItemWith tipFn index q) := by
  match q with
  | .null | .bool _ | .num _ | .str _ | .arr _ => simp [wellFormedItemB] at hwf
  | .obj fs =>
    simp only [wellFormedItemB, Bool.and_eq_true] at hwf
    obtain ⟨⟨⟨hq1, hq2⟩, hq3, hq4⟩, htips⟩ := hwf
    have hex : ∃ tips : List Json,
        objField (Json.obj fs) (sl "tips") = some (.arr tips) ∧ tips.length ≠ 0 := by
      revert htips
      cases hob : objField (Json.obj fs) (sl "tips") with
      | none => intro h; simp at h
      | some v =>
        cases v with
        | arr tips => intro h; exact ⟨tips, rfl, by simpa using h⟩
        | null => intro h; simp at h
        | bool b => intro h; simp at h
        | num n => intro h; simp at h
        | str s => intro h; simp at h
        | obj fs2 => intro h; simp at h
    obtain ⟨tips, hob, hne⟩ := hex
    unfold validateItemWith
    rw [jsGet_eq _ _ (by simp), jsGet_eq _ _ (by simp), jsGet_eq _ _ (by simp)]
    simp only [Bind.bind, Except.bind]
    rw [if_neg (by simp [hq1, hq2]), if_neg (by simp [hq3, hq4]), hob]
    simp [formatItemWith, arrElems, hob, hne]

/-- The formatted records of a list of items, tracking the running index. -/
def mapIdxFormat (tipFn : Json → Str) : Nat → List Json → List QuestionRecord
  | _, [] => []
  | i, q :: rest => formatItemWith tipFn i q :: mapIdxFormat tipFn (i + 1) rest

/-- Formatting preserves the length. -/
theorem mapIdxFormat_length (tipFn : Json → Str) :
    ∀ (start : Nat) (xs : List Json), (mapIdxFormat tipFn start xs).length = xs.length := by
  intro start xs
  induction xs generalizing start with
  | nil => rfl
  | cons q rest ih => simp [mapIdxFormat, ih]

/-- On a list of well-formed items, the validator map succeeds with the
formatted records in order. -/
theorem validateListWith_wf (tipFn : Json → Str) :
    ∀ (xs : List Json) (start : Nat),
    (∀ q ∈ xs, wellFormedItemB q = true) →
    validateListWith (fun i q => validateItemWith tipFn i q) start xs
      = .ok (mapIdxFormat tipFn start xs) := by
  intro xs
  induction xs with
  | nil => intro start _; rfl
  | cons q rest ih =>
    intro start h
    rw [validateListWith]
    rw [validateItemWith_wf tipFn start q (h q (by simp))]
    simp only [Bind.bind, Except.bind]
    rw [ih (start + 1) (fun x hx => h x (by simp [hx]))]
    rfl

/-- The all-zero record used as a `getD` default in statements. -/
def defaultRecord : QuestionRecord := { id := 0, question := [], answer := [], tips := [] }

/-- Position `i` of the formatted list is the format of position `i` of the
input. -/
theorem mapIdxFormat_getD (tipFn : Json → Str) :
    ∀ (xs : List Json) (start i : Nat), i < xs.length →
    (mapIdxFormat tipFn start xs).getD i defaultRecord
      = formatItemWith tipFn (start + i) (xs.getD i .null) := by
  intro xs
  induction xs with
  | nil => intro start i h; simp at h
  | cons q rest ih =>
    intro start i h
    cases i with
    | zero => simp [mapIdxFormat]
    | succ n =>
      simp only [mapIdxFormat, List.getD_cons_succ]
      rw [ih (start + 1) n (by simp at h; omega)]
      congr 1
      omega

/-- `take` does not change positions below the cut. -/
theorem take_getD (d : Json) : ∀ (xs : List Json) (n i : Nat), i < n →
    (xs.take n).getD i d = xs.getD i d := by
  intro xs
  induction xs with
  | nil => intro n i h; simp
  | cons q rest ih =>
    intro n i h
    cases n with
    | zero => omega
    | succ m =>
      cases i with
      | zero => simp
      | succ j =>
        simp only [List.take_succ_cons, List.getD_cons_succ]
        exact ih m j (by omega)

/-! ### Claim C7 -/

/-- C7: on a parsed array of 12 well-formed items with target count 10,
`part_002`'s validator (`parsedQuestions.slice(0, 10).map(…)`) outputs exactly
the formatted first ten items in their original order, and the ids are
assigned by the validator as the sequential integers 1..10 (`id: index + 1`),
not taken from the model output. -/
theorem twelve_items_truncate_to_first_ten (xs : List Json) (hlen : xs.length = 12)
    (hwf : ∀ q ∈ xs.take 10, wellFormedItemB q = true) :
    processQuestionsP2 xs = .ok (mapIdxFormat processTipRC 0 (xs.take 10)) ∧
    (mapIdxFormat processTipRC 0 (xs.take 10)).length = 10 ∧
    (∀ i, i < 10 →
      (mapIdxFormat processTipRC 0 (xs.take 10)).getD i defaultRecord
        = formatItemWith processTipRC i (xs.getD i .null) ∧
      ((mapIdxFormat processTipRC 0 (xs.take 10)).getD i defaultRecord).id = i + 1) := by
  have hlen10 : (xs.take 10).length = 10 := by
    rw [List.length_take]; omega
  have hv := validateListWith_wf processTipRC (xs.take 10) 0 hwf
  have hmlen : (mapIdxFormat processTipRC 0 (xs.take 10)).length = 10 := by
    rw [mapIdxFormat_length]; exact hlen10
  refine ⟨?_, hmlen, ?_⟩
  · unfold processQuestionsP2
    have hv' : validateListWith validateItemP2 0 (xs.take 10)
        = .ok (mapIdxFormat processTipRC 0 (xs.take 10)) := hv
    rw [hv']
    simp only [Bind.bind, Except.bind]
    rw [if_neg (by omega)]
    rw [List.take_of_length_le (by omega)]
  · intro i hi
    have h1 : (mapIdxFormat processTipRC 0 (xs.take 10)).getD i defaultRecord
        = formatItemWith processTipRC i ((xs.take 10).getD i .null) := by
      have := mapIdxFormat_getD processTipRC (xs.take 10) 0 i (by omega)
      simpa using this
    rw [h1, take_getD .null xs 10 i hi]
    exact ⟨rfl, rfl⟩

/-- A concrete well-formed twelve-item model output for the C7 witness. -/
def twelveItems : List Json :=
  (List.range 12).map (fun i => Json.obj
    [(sl "question", .str ('Q' :: intRepr i)),
     (sl "answer", .str ('A' :: intRepr i)),
     (sl "tips", .arr [.str (sl "t1"), .str (sl "t2"), .str (sl "t3")])])

/-- Witness for C7 at the concrete twelve-item array. -/
theorem twelve_items_truncate_to_first_ten_witness :
    processQuestionsP2 twelveItems = .ok (mapIdxFormat processTipRC 0 (twelveItems.take 10)) ∧
    (mapIdxFormat processTipRC 0 (twelveItems.take 10)).length = 10 ∧
    (∀ i, i < 10 →
      (mapIdxFormat processTipRC 0 (twelveItems.take 10)).getD i defaultRecord
        = formatItemWith processTipRC i (twelveItems.getD i .null) ∧
      ((mapIdxFormat processTipRC 0 (twelveItems.take 10)).getD i defaultRecord).id = i + 1) :=
  twelve_items_truncate_to_first_ten twelveItems (by decide)
    (by decide)

/-! ### Fallback padding (second `src/src/main.js` revision) -/

/-- The record the padding loop pushes when the output has `i` entries:
fallback entry `i % fallbackData.length`, id `i + 1`. -/
def fallbackPadEntry (i : Nat) : QuestionRecord :=
  let e := fallbackQuestionsData.getD (i % fallbackQuestionsData.length) ([], [], [])
  { id := i + 1, question := e.1, answer := e.2.1, tips := e.2.2 }

/-- The full tail the padding loop appends, starting from length `n`. -/
def padTailFrom (n : Nat) : List QuestionRecord :=
  if n < 10 then fallbackPadEntry n :: padTailFrom (n + 1) else []
termination_by 10 - n
decreasing_by omega

/-- The padding tail has exactly the missing `10 - n` entries. -/
theorem padTailFrom_length : ∀ (k n : Nat), 10 - n ≤ k → (padTailFrom n).length = 10 - n := by
  intro k
  induction k with
  | zero =>
    intro n h
    rw [padTailFrom, if_neg (by omega)]
    simp
    omega
  | succ m ih =>
    intro n h
    by_cases hn : n < 10
    · rw [padTailFrom, if_pos hn]
      simp only [List.length_cons]
      rw [ih (n + 1) (by omega)]
      omega
    · rw [padTailFrom, if_neg hn]
      simp
      omega

/-- The padding loop appends exactly the fallback tail. -/
theorem padQuestionsRB_eq : ∀ (k : Nat) (qs : List QuestionRecord), 10 - qs.length ≤ k →
    padQuestionsRB qs = qs ++ padTailFrom qs.length := by
  intro k
  induction k with
  | zero =>
    intro qs h
    rw [padQuestionsRB, padTailFrom]
    rw [if_neg (by omega), if_neg (by omega)]
    simp
  | succ m ih =>
    intro qs h
    by_cases hlt : qs.length < 10
    · rw [padQuestionsRB, if_pos hlt]
      rw [ih _ (by simp only [List.length_append, List.length_cons, List.length_nil]; omega)]
      conv_rhs => rw [padTailFrom, if_pos hlt]
      simp only [List.length_append, List.length_cons, List.length_nil, List.append_assoc,
        List.cons_append, List.nil_append, Nat.add_zero]
      rfl
    · rw [padQuestionsRB, if_neg hlt, padTailFrom, if_neg hlt]
      simp

/-- Position `i` of the padding tail started at `n` is the cycled fallback
entry for output position `n + i`. -/
theorem padTailFrom_getD : ∀ (k n i : Nat), 10 - n ≤ k → n + i < 10 →
    (padTailFrom n).getD i defaultRecord = fallbackPadEntry (n + i) := by
  intro k
  induction k with
  | zero => intro n i h1 h2; omega
  | succ m ih =>
    intro n i h1 h2
    rw [padTailFrom, if_pos (by omega)]
    cases i with
    | zero => simp
    | succ j =>
      simp only [List.getD_cons_succ]
      rw [ih (n + 1) j (by omega) (by omega)]
      congr 1
      omega

/-! ### Claim C1 -/

/-- C1 counterexample: `part_002` (cited by the claim) does not pad a deficit
with Fallback Provider entries — a parsed array with one well-formed item
makes its validation stage throw
`Generated only 1 questions, expected 10`, so no ten-element validated
sequence is returned to the caller. -/
theorem deficit_not_padded_P2 :
    processQuestionsP2 [Json.obj [(sl "question", .str (sl "Q")), (sl "answer", .str (sl "A")),
      (sl "tips", .arr [.str (sl "t")])]]
      = .error "Generated only 1 questions, expected 10" := by rfl

/-- C1 (amended to the second `src/src/main.js` revision, the one with the
fallback-padding loop): for every parsed model-output array whose first ten
items are well-formed, the validated sequence has length exactly 10; items
beyond the target count are discarded in stable order (position `i` below the
cut carries the formatted item `i`); a deficit is padded with Fallback
Provider entries, cycled through the fallback table, and every position's id
is the next sequential integer `i + 1`. -/
theorem count_invariant_with_fallback_padding_RB (xs : List Json)
    (hwf : ∀ q ∈ xs.take 10, wellFormedItemB q = true) :
    ∃ qs, processQuestionsRB xs = .ok qs ∧
      qs.length = 10 ∧
      (∀ i, i < min xs.length 10 →
        qs.getD i defaultRecord = formatItemWith coerceTrimTip i (xs.getD i .null)) ∧
      (∀ i, min xs.length 10 ≤ i → i < 10 → qs.getD i defaultRecord = fallbackPadEntry i) ∧
      (∀ i, i < 10 → (qs.getD i defaultRecord).id = i + 1) := by
  have hk : (xs.take 10).length = min xs.length 10 := by
    rw [List.length_take]; omega
  set k := min xs.length 10 with hkdef
  have hk10 : k ≤ 10 := by omega
  have hv := validateListWith_wf coerceTrimTip (xs.take 10) 0 hwf
  set v := mapIdxFormat coerceTrimTip 0 (xs.take 10) with hvdef
  have hvlen : v.length = k := by rw [hvdef, mapIdxFormat_length]; exact hk
  have hpad : padQuestionsRB v = v ++ padTailFrom k := by
    rw [padQuestionsRB_eq 10 v (by omega), hvlen]
  have hptlen : (padTailFrom k).length = 10 - k := padTailFrom_length 10 k (by omega)
  have htotal : (v ++ padTailFrom k).length = 10 := by
    simp only [List.length_append, hvlen, hptlen]; omega
  refine ⟨v ++ padTailFrom k, ?_, htotal, ?_, ?_, ?_⟩
  · unfold processQuestionsRB
    have hv' : validateListWith validateItemRB 0 (xs.take 10) = .ok v := hv
    rw [hv']
    simp only [Bind.bind, Except.bind]
    rw [hpad, List.take_of_length_le (by omega)]
  · intro i hi
    rw [List.getD_append _ _ _ _ (by omega)]
    rw [hvdef, mapIdxFormat_getD coerceTrimTip (xs.take 10) 0 i (by omega)]
    rw [take_getD .null xs 10 i (by omega)]
    simp
  · intro i h1 h2
    rw [List.getD_append_right _ _ _ _ (by omega)]
    rw [hvlen]
    rw [padTailFrom_getD 10 k (i - k) (by omega) (by omega)]
    congr 1
    omega
  · intro i hi
    by_cases hik : i < k
    · rw [List.getD_append _ _ _ _ (by omega)]
      rw [hvdef, mapIdxFormat_getD coerceTrimTip (xs.take 10) 0 i (by omega)]
      simp [formatItemWith]
    · rw [List.getD_append_right _ _ _ _ (by omega), hvlen]
      rw [padTailFrom_getD 10 k (i - k) (by omega) (by omega)]
      simp only [fallbackPadEntry]
      omega

/-- Witness for C1's amended theorem at a concrete two-item parsed array
(two items formatted, eight fallback entries padded, ids 1..10). -/
theorem count_invariant_with_fallback_padding_RB_witness :
    ∃ qs, processQuestionsRB
        [Json.obj [(sl "question", .str (sl "Q1")), (sl "answer", .str (sl "A1")),
           (sl "tips", .arr [.str (sl "t")])],
         Json.obj [(sl "question", .str (sl "Q2")), (sl "answer", .str (sl "A2")),
           (sl "tips", .arr [.str (sl "u")])]] = .ok qs ∧
      qs.length = 10 ∧
      (∀ i, i < min 2 10 →
        qs.getD i defaultRecord = formatItemWith coerceTrimTip i
          (([Json.obj [(sl "question", .str (sl "Q1")), (sl "answer", .str (sl "A1")),
              (sl "tips", .arr [.str (sl "t")])],
            Json.obj [(sl "question", .str (sl "Q2")), (sl "answer", .str (sl "A2")),
              (sl "tips", .arr [.str (sl "u")])]]).getD i .null)) ∧
      (∀ i, min 2 10 ≤ i → i < 10 → qs.getD i defaultRecord = fallbackPadEntry i) ∧
      (∀ i, i < 10 → (qs.getD i defaultRecord).id = i + 1) :=
  count_invariant_with_fallback_padding_RB
    [Json.obj [(sl "question", .str (sl "Q1")), (sl "answer", .str (sl "A1")),
       (sl "tips", .arr [.str (sl "t")])],
     Json.obj [(sl "question", .str (sl "Q2")), (sl "answer", .str (sl "A2")),
       (sl "tips", .arr [.str (sl "u")])]] (by decide)

/-! ### C4: career-path lookup failure -/

/-- A talent document with a truthy `selectedPath`, used to exercise the
career-path lookup. -/
def talentC4 : Talent :=
  { docId := sl "d1", fullname := sl "Ada", careerStage := sl "Pathfinder",
    selectedPath := some (sl "p1"), skills := [], degrees := [], interests := [],
    certifications := [] }

/-- A root-handler request whose talent is found (with a selected path) and
whose career-path lookup throws. -/
def envC4cex : EnvR0 :=
  { body := sl "\x7b\"talentId\":\"t1\"\x7d",
    talentDoc := .ok talentC4,
    careerPathDoc := .error "Document not found",
    modelCall := .text (sl "[]"),
    generatedAt := sl "t" }


/-- A second-revision request whose talent is found (with a selected path) and
whose career-path lookup throws. -/
def envRBc4 : EnvRB :=
  { body := sl "\x7b\"talentId\":\"t1\"\x7d",
    talentQuery := .ok [talentC4],
    careerPathDoc := .error "Document not found",
    attempts := fun _ => .timeout,
    generatedAt := sl "t",
    executionTime := 5 }

set_option maxRecDepth 100000 in
/-- C4, counterexample: in `src/main.js` (cited lines 70–88) a failing
career-path lookup is NOT absorbed — the handler returns the
`Career path not found` 404 error response instead of proceeding to
generation. -/
theorem career_path_failure_404_R0 :
    handlerR0 envC4cex = plainErrorResponse "Career path not found" 404 := rfl

/-- C4, amended: in the second `src/src/main.js` revision (cited lines
648–660) the career-path lookup failure IS absorbed: when the talent is found
and the lookup throws, the handler behaves exactly as if the talent had no
selected path at all (the generic-prompt path), so no error response can
arise from the lookup. -/
theorem career_path_failure_absorbed_RB (env : EnvRB) (talent : Talent)
    (restT : List Talent) (msg : String)
    (hq : env.talentQuery = .ok (talent :: restT))
    (hp : env.careerPathDoc = .error msg) :
    handlerRB env
      = handlerRB { env with
          talentQuery := .ok ({ talent with selectedPath := none } :: restT) } := by
  unfold handlerRB handlerRBTry
  rw [hq, hp]
  simp only [optStrTruthy, ite_self]
  rfl

/-- C4 witness: the amended theorem applied at a concrete environment. -/
theorem career_path_failure_absorbed_RB_witness :
    envRBc4.talentQuery = .ok [talentC4] ∧
    envRBc4.careerPathDoc = .error "Document not found" ∧
    handlerRB envRBc4
      = handlerRB { envRBc4 with
          talentQuery := .ok [{ talentC4 with selectedPath := none }] } :=
  ⟨rfl, rfl, career_path_failure_absorbed_RB envRBc4 talentC4 [] "Document not found" rfl rfl⟩

/-! ### C10: every path returns a flagged JSON response -/

/-- Whether a JSON value is an object carrying field `k`. -/
def hasField (v : Json) (k : Str) : Bool :=
  match v with
  | .obj fs => (alookup fs k).isSome
  | _ => false

/-- A response is flagged when its JSON body carries both a `success` and a
`statusCode` field. -/
def flagged (r : HttpResponse) : Bool :=
  hasField r.1 (sl "success") && hasField r.1 (sl "statusCode")

/-- Every response of the root handler's generation section is flagged. -/
theorem generationSectionR0_flagged (env : EnvR0) (talent : Talent)
    (cp : Option CareerPath) : flagged (generationSectionR0 env talent cp) = true := by
  simp only [generationSectionR0]
  split
  · rename_i resp h
    repeat' split at h
    all_goals first
      | (injection h with h1; subst h1; rfl)
      | (subst h; rfl)
      | simp at h
  · rfl

/-- Every response of `part_000`'s generation section is flagged. -/
theorem generationSectionP0_flagged (env : EnvP0) (ct : Str) (talent : Talent)
    (cp : Option CareerPath) : flagged (generationSectionP0 env ct talent cp) = true := by
  simp only [generationSectionP0]
  split
  · rename_i resp h
    repeat' split at h
    all_goals first
      | (injection h with h1; subst h1; rfl)
      | (subst h; rfl)
      | simp at h
  · rfl

/-- Every normal return of the second revision's try block is flagged. -/
theorem handlerRBTry_ok_flagged (env : EnvRB) (r : HttpResponse)
    (h : handlerRBTry env = .ok r) : flagged r = true := by
  simp only [handlerRBTry] at h
  repeat' split at h
  all_goals first
    | (injection h with h1; subst h1; rfl)
    | (subst h; rfl)
    | simp at h

/-- Every normal return of the root handler's try block is flagged. -/
theorem handlerR0Try_ok_flagged (env : EnvR0) (r : HttpResponse)
    (h : handlerR0Try env = .ok r) : flagged r = true := by
  simp only [handlerR0Try] at h
  repeat' split at h
  all_goals first
    | (injection h with h1; subst h1; first
        | rfl
        | exact generationSectionR0_flagged _ _ _)
    | (subst h; first
        | rfl
        | exact generationSectionR0_flagged _ _ _)
    | simp at h

/-- Every normal return of `part_000`'s try block is flagged. -/
theorem handlerP0Try_ok_flagged (env : EnvP0) (r : HttpResponse)
    (h : handlerP0Try env = .ok r) : flagged r = true := by
  simp only [handlerP0Try] at h
  repeat' split at h
  all_goals first
    | (injection h with h1; subst h1; first
        | rfl
        | exact generationSectionP0_flagged _ _ _ _)
    | (subst h; first
        | rfl
        | exact generationSectionP0_flagged _ _ _ _)
    | simp at h

/-- C10: for every request body and every collaborator outcome, each of the
three cited exported handlers returns exactly one JSON response carrying a
`success` flag and a `statusCode` field — no execution path propagates an
exception (thrown exceptions are the `.error` results of the try blocks, and
each outer catch converts them into a flagged 500 response). -/
theorem handlers_always_flagged (envB : EnvRB) (env0 : EnvR0) (envP : EnvP0) :
    flagged (handlerRB envB) = true ∧ flagged (handlerR0 env0) = true ∧
    flagged (handlerP0 envP) = true := by
  refine ⟨?_, ?_, ?_⟩
  · unfold handlerRB
    split
    · rename_i r h
      exact handlerRBTry_ok_flagged envB r h
    · rfl
  · unfold handlerR0
    split
    · rename_i r h
      exact handlerR0Try_ok_flagged env0 r h
    · rfl
  · unfold handlerP0
    split
    · rename_i r h
      exact handlerP0Try_ok_flagged envP r h
    · rfl

/-! ### C3: extractor failure propagation -/

/-- Membership is preserved by `dropWhile`. -/
theorem mem_of_dropWhile {α : Type} (p : α → Bool) : ∀ (l : List α) (a : α),
    a ∈ l.dropWhile p → a ∈ l := by
  intro l
  induction l with
  | nil => intro a h; simpa [List.dropWhile] using h
  | cons b t ih =>
    intro a h
    simp only [List.dropWhile] at h
    split at h
    · exact List.mem_cons_of_mem _ (ih a h)
    · exact h

/-- Membership is preserved by `trim`. -/
theorem jsTrim_mem (s : Str) (a : Char) (h : a ∈ jsTrim s) : a ∈ s := by
  simp only [jsTrim] at h
  rw [List.mem_reverse] at h
  have h2 := mem_of_dropWhile isWsChar _ _ h
  rw [List.mem_reverse] at h2
  exact mem_of_dropWhile isWsChar _ _ h2

/-- The json-fence stripper only deletes characters. -/
theorem stripJsonFences_mem : ∀ (s : Str) (a : Char), a ∈ stripJsonFences s → a ∈ s := by
  intro s
  induction s using stripJsonFences.induct with
  | case1 c1 c2 c3 c4 rest hcond ih =>
    intro a h
    rw [stripJsonFences, if_pos hcond] at h
    have h2 := mem_of_dropWhile isWsChar rest a (ih a h)
    simp [List.mem_cons, h2]
  | case2 c1 c2 c3 c4 rest hcond ih =>
    intro a h
    rw [stripJsonFences, if_neg hcond] at h
    simp only [List.mem_cons] at h ⊢
    cases h with
    | inl h0 => exact Or.inl h0
    | inr h0 =>
      have h1 := ih a h0
      simp only [List.mem_cons] at h1
      tauto
  | case3 c rest hne ih =>
    intro a h
    rw [stripJsonFences] at h
    · simp only [List.mem_cons] at h ⊢
      cases h with
      | inl h0 => exact Or.inl h0
      | inr h0 => exact Or.inr (ih a h0)
    all_goals exact hne
  | case4 =>
    intro a h
    rw [stripJsonFences] at h
    simp at h

/-- The bare-fence stripper only deletes characters. -/
theorem stripFences_mem : ∀ (s : Str) (a : Char), a ∈ stripFences s → a ∈ s := by
  intro s
  induction s using stripFences.induct with
  | case1 rest ih =>
    intro a h
    rw [stripFences] at h
    have h2 := mem_of_dropWhile isWsChar rest a (ih a h)
    simp [List.mem_cons, h2]
  | case2 c rest hne ih =>
    intro a h
    rw [stripFences] at h
    · simp only [List.mem_cons] at h ⊢
      cases h with
      | inl h0 => exact Or.inl h0
      | inr h0 => exact Or.inr (ih a h0)
    all_goals exact hne
  | case3 =>
    intro a h
    rw [stripFences] at h
    simp at h

/-- When every element satisfies the predicate, `dropWhile` drops the whole
list. -/
theorem dropWhile_eq_nil_of_all {α : Type} (p : α → Bool) : ∀ (l : List α),
    (∀ x ∈ l, p x = true) → l.dropWhile p = [] := by
  intro l
  induction l with
  | nil => intro _; rfl
  | cons b t ih =>
    intro hall
    simp only [List.dropWhile, hall b (List.mem_cons_self b t)]
    exact ih (fun x hx => hall x (List.mem_cons_of_mem b hx))

/-- A value parse that returns an array met an opening bracket. -/
theorem parseValue_arr_mem : ∀ (fuel : Nat) (s : Str) (xs : List Json) (r : Str),
    parseValue fuel s = .ok (.arr xs, r) → '[' ∈ s := by
  intro fuel s xs r h
  match fuel with
  | 0 => simp [parseValue, parsers] at h
  | fuel + 1 =>
    rw [parseValue_succ] at h
    simp only [parseValueBody] at h
    match hskip : skipWs s with
    | [] => rw [hskip] at h; simp at h
    | c :: rest =>
      simp only [hskip] at h
      have hcmem : c ∈ s := by
        have h1 : c ∈ skipWs s := by rw [hskip]; exact List.mem_cons_self c rest
        exact mem_of_dropWhile isWsChar s c h1
      by_cases hbr : c = '['
      · subst hbr; exact hcmem
      · repeat' split at h
        all_goals simp_all

/-- A whole-text parse that returns an array met an opening bracket. -/
theorem jsonParse_arr_mem (s : Str) (xs : List Json)
    (h : jsonParse s = .ok (.arr xs)) : '[' ∈ s := by
  simp only [jsonParse] at h
  split at h
  · simp at h
  · rename_i v r heq
    split at h
    · injection h with h1
      subst h1
      exact parseValue_arr_mem _ s xs r heq
    · simp at h

/-- Without brackets and braces the slice/reconstruct stage always throws
`No valid JSON objects found in response`. -/
theorem sliceOrReconstruct_no_brackets (s : Str) (hb : '[' ∉ s) (hc : '{' ∉ s) :
    sliceOrReconstruct s = .error "No valid JSON objects found in response" := by
  have hidx : indexOfChar '[' s = none := by
    simp only [indexOfChar]
    rw [List.findIdx?_eq_none_iff]
    intro x hx
    simp only [beq_eq_false_iff_ne, ne_eq]
    intro h0
    subst h0
    exact hb hx
  have hdw : s.dropWhile isNotOpenBrace = [] := by
    refine dropWhile_eq_nil_of_all isNotOpenBrace s (fun x hx => ?_)
    simp only [isNotOpenBrace, decide_eq_true_eq]
    intro h0
    subst h0
    exact hc hx
  have hcol : collectObjects s = [] := by
    rw [collectObjects]
    split
    · rename_i rest heq
      rw [hdw] at heq
      all_goals simp at heq
    · rfl
  simp only [sliceOrReconstruct, hidx, reconstructFromObjects, hcol]

/-- Concrete run: the `part_002` extractor throws on bracket-free garbage. -/
theorem extract_p2_nojson :
    extractAndCleanJSON_p2 (sl "no json here!!")
      = .error "No valid JSON objects found in response" := by
  have e2 : stripJsonFences (jsTrim (sl "no json here!!")) = sl "no json here!!" := by
    rw [← stripJsonFencesF_eq (jsTrim (sl "no json here!!"))
      (jsTrim (sl "no json here!!")).length le_rfl]
    rfl
  have e3 : stripFences (sl "no json here!!") = sl "no json here!!" := by
    rw [← stripFencesF_eq (sl "no json here!!") (sl "no json here!!").length le_rfl]
    rfl
  have e4 : jsonParse (sl "no json here!!") = .error "bad literal" := rfl
  have e6 : collectObjects (sl "no json here!!") = [] := by
    rw [← collectObjectsF_eq (sl "no json here!!") (sl "no json here!!").length le_rfl]
    rfl
  have i1 : indexOfChar '[' (sl "no json here!!") = none := rfl
  simp only [extractAndCleanJSON_p2, e2, e3, e4, sliceOrReconstruct, i1,
    reconstructFromObjects, e6]

/-- C3, counterexample: the `extractAndCleanJSON` of the second
`src/src/main.js` revision (cited lines 415–423) does NOT propagate an
extraction failure — on bracket-free garbage its catch silently substitutes
the static fallback questions string. -/
theorem garbage_substituted_not_thrown_v2 :
    extractAndCleanJSON_v2 (sl "no json here!!") = createFallbackQuestions := by
  simp only [extractAndCleanJSON_v2, extract_p2_nojson]

/-- C3, amended: for the `part_002` extractor (cited lines 122–130) the
failure contract holds: on any text containing no `[` and no `{` (including
empty and whitespace-only text) it throws `No valid JSON objects found in
response`, and every successful result is the serialization of a parsed
array — it never silently returns substitute content. -/
theorem extractor_error_contract_p2 :
    (∀ text : Str, '[' ∉ text → '{' ∉ text →
      extractAndCleanJSON_p2 text = .error "No valid JSON objects found in response") ∧
    (∀ (text s : Str), extractAndCleanJSON_p2 text = .ok s →
      ∃ (fuel : Nat) (xs : List Json), s = stringifyJson fuel (Json.arr xs)) := by
  constructor
  · intro text hb hc
    have hb0 : '[' ∉ stripFences (stripJsonFences (jsTrim text)) := fun h =>
      hb (jsTrim_mem _ _ (stripJsonFences_mem _ _ (stripFences_mem _ _ h)))
    have hc0 : '{' ∉ stripFences (stripJsonFences (jsTrim text)) := fun h =>
      hc (jsTrim_mem _ _ (stripJsonFences_mem _ _ (stripFences_mem _ _ h)))
    simp only [extractAndCleanJSON_p2]
    split
    · rename_i xs heq
      exact absurd (jsonParse_arr_mem _ xs heq) hb0
    · rw [sliceOrReconstruct_no_brackets _ hb0 hc0]
  · intro text s h
    simp only [extractAndCleanJSON_p2] at h
    repeat' split at h
    all_goals first
      | (injection h with h1; exact ⟨_, _, h1.symm⟩)
      | (exact ⟨_, _, h.symm⟩)
      | simp at h

/-- C3 witness: the amended theorem applied at concrete inputs — the garbage
text `no json here!!` throws, and the successful extraction of `[]` is the
serialization of an array. -/
theorem extractor_error_contract_p2_witness :
    extractAndCleanJSON_p2 (sl "no json here!!")
      = .error "No valid JSON objects found in response" ∧
    (∃ (fuel : Nat) (xs : List Json), sl "[]" = stringifyJson fuel (Json.arr xs)) := by
  constructor
  · exact extractor_error_contract_p2.1 (sl "no json here!!") (by decide) (by decide)
  · refine extractor_error_contract_p2.2 (sl "[]") (sl "[]") ?_
    have e2 : stripJsonFences (jsTrim (sl "[]")) = sl "[]" := by
      rw [← stripJsonFencesF_eq (jsTrim (sl "[]")) (jsTrim (sl "[]")).length le_rfl]
      rfl
    have e3 : stripFences (sl "[]") = sl "[]" := by
      rw [← stripFencesF_eq (sl "[]") (sl "[]").length le_rfl]
      rfl
    have e4 : jsonParse (sl "[]") = .ok (Json.arr []) := rfl
    simp only [extractAndCleanJSON_p2, e2, e3, e4]
    rfl

/-! ### Parse/print round trip (for the JSON fragment this program emits) -/

/-- The printed fragment that rounds back: no numbers (the program's data has
none) and no backticks inside strings (so the fence strippers are no-ops on
the printed text); fuel-indexed by nesting depth like `stringifyJson`. -/
def goodB : Nat → Json → Bool
  | 0, _ => false
  | _ + 1, .null => true
  | _ + 1, .bool _ => true
  | _ + 1, .num _ => false
  | _ + 1, .str s => s.all (fun c => ¬ c = '`')
  | d + 1, .arr xs => xs.all (fun x => goodB d x)
  | d + 1, .obj fs => fs.all (fun kv => kv.1.all (fun c => ¬ c = '`') && goodB d kv.2)

/-- Good values fit their depth bound. -/
theorem goodB_fits : ∀ (d : Nat) (j : Json), goodB d j = true → jfits d j = true := by
  intro d
  induction d with
  | zero => intro j h; simp [goodB] at h
  | succ d ih =>
    intro j h
    match j with
    | .null => rfl
    | .bool _ => rfl
    | .num _ => simp [goodB] at h
    | .str _ => rfl
    | .arr xs =>
      simp only [goodB, List.all_eq_true] at h
      simp only [jfits, List.all_eq_true]
      exact fun x hx => ih x (h x hx)
    | .obj fs =>
      simp only [goodB, List.all_eq_true, Bool.and_eq_true] at h
      simp only [jfits, List.all_eq_true]
      exact fun kv hkv => ih kv.2 (h kv hkv).2

/-- Dropping leading whitespace is a no-op on a non-whitespace head. -/
theorem skipWs_cons (c : Char) (t : Str) (h : isWsChar c = false) :
    skipWs (c :: t) = c :: t := by
  simp [skipWs, List.dropWhile, h]

/-- `escapeStr` distributes over cons. -/
theorem escapeStr_cons (c : Char) (t : Str) :
    escapeStr (c :: t) = escEncode c ++ escapeStr t := rfl

/-- Parsing a printed string body recovers the string. -/
theorem parseStrBody_roundtrip : ∀ (s rest : Str),
    parseStrBody (escapeStr s ++ '"' :: rest) = .ok (s, rest) := by
  intro s
  induction s with
  | nil =>
    intro rest
    rw [show escapeStr [] ++ '"' :: rest = '"' :: rest from rfl]
    rw [parseStrBody.eq_def]
    simp
  | cons c t ih =>
    intro rest
    rw [escapeStr_cons, List.append_assoc]
    by_cases h1 : c = '"'
    · subst h1
      rw [show escEncode '"' = ['\\', '"'] from rfl]
      rw [parseStrBody.eq_def]
      simp [escDecode, ih rest]
    · by_cases h2 : c = '\\'
      · subst h2
        rw [show escEncode '\\' = ['\\', '\\'] from rfl]
        rw [parseStrBody.eq_def]
        simp [escDecode, ih rest]
      · by_cases h3 : c = '\n'
        · subst h3
          rw [show escEncode '\n' = ['\\', 'n'] from rfl]
          rw [parseStrBody.eq_def]
          simp [escDecode, ih rest]
        · by_cases h4 : c = '\t'
          · subst h4
            rw [show escEncode '\t' = ['\\', 't'] from rfl]
            rw [parseStrBody.eq_def]
            simp [escDecode, ih rest]
          · by_cases h5 : c = '\r'
            · subst h5
              rw [show escEncode '\r' = ['\\', 'r'] from rfl]
              rw [parseStrBody.eq_def]
              simp [escDecode, ih rest]
            · rw [show escEncode c = [c] from by simp [escEncode, h1, h2, h3, h4, h5]]
              rw [List.singleton_append, parseStrBody.eq_def]
              simp [h1, h2, ih rest]

/-- Fuel upper bound sufficient to parse the printed form of a good value. -/
def needF : Nat → Json → Nat
  | 0, _ => 1
  | d + 1, .arr xs => 2 + (xs.map (fun x => needF d x)).foldr max 0 + xs.length
  | d + 1, .obj fs => 2 + (fs.map (fun kv => needF d kv.2)).foldr max 0 + fs.length
  | _ + 1, _ => 1

/-- Every parse-fuel bound is positive. -/
theorem needF_pos (d : Nat) (j : Json) : 1 ≤ needF d j := by
  match d, j with
  | 0, _ => exact le_refl 1
  | _ + 1, .null => exact le_refl 1
  | _ + 1, .bool _ => exact le_refl 1
  | _ + 1, .num _ => exact le_refl 1
  | _ + 1, .str _ => exact le_refl 1
  | d + 1, .arr xs => simp only [needF]; omega
  | d + 1, .obj fs => simp only [needF]; omega

/-- A member is at most the `max`-fold of its list. -/
theorem le_foldr_max : ∀ (l : List Nat) (a : Nat), a ∈ l → a ≤ l.foldr max 0 := by
  intro l
  induction l with
  | nil => intro a h; simp at h
  | cons b t ih =>
    intro a h
    rcases List.mem_cons.mp h with h0 | h0
    · subst h0; exact Nat.le_max_left _ _
    · exact le_trans (ih a h0) (Nat.le_max_right _ _)

/-- `skipWs` is a no-op on each of the printer's leading characters. -/
theorem skipWs_quote (t : Str) : skipWs ('"' :: t) = '"' :: t := skipWs_cons '"' t (by decide)

/-- `skipWs` no-op at `[`. -/
theorem skipWs_lbrk (t : Str) : skipWs ('[' :: t) = '[' :: t := skipWs_cons '[' t (by decide)

/-- `skipWs` no-op at `]`. -/
theorem skipWs_rbrk (t : Str) : skipWs (']' :: t) = ']' :: t := skipWs_cons ']' t (by decide)

/-- `skipWs` no-op at `{`. -/
theorem skipWs_lbrc (t : Str) : skipWs ('{' :: t) = '{' :: t := skipWs_cons '{' t (by decide)

/-- `skipWs` no-op at `}`. -/
theorem skipWs_rbrc (t : Str) : skipWs ('}' :: t) = '}' :: t := skipWs_cons '}' t (by decide)

/-- `skipWs` no-op at `:`. -/
theorem skipWs_colon (t : Str) : skipWs (':' :: t) = ':' :: t := skipWs_cons ':' t (by decide)

/-- `skipWs` no-op at `,`. -/
theorem skipWs_comma (t : Str) : skipWs (',' :: t) = ',' :: t := skipWs_cons ',' t (by decide)

/-- The first character of a printed good value: never whitespace and never a
closing delimiter or comma. -/
theorem stringify_head (d : Nat) (j : Json) (h : goodB (d + 1) j = true) :
    ∃ c t, stringifyJson (d + 1) j = c :: t ∧ isWsChar c = false ∧
      ¬ c = ']' ∧ ¬ c = '}' ∧ ¬ c = ',' := by
  match j with
  | .null => exact ⟨'n', _, rfl, by decide, by decide, by decide, by decide⟩
  | .bool true => exact ⟨'t', _, rfl, by decide, by decide, by decide, by decide⟩
  | .bool false => exact ⟨'f', _, rfl, by decide, by decide, by decide, by decide⟩
  | .num n => simp [goodB] at h
  | .str s => exact ⟨'"', _, rfl, by decide, by decide, by decide, by decide⟩
  | .arr xs => exact ⟨'[', _, rfl, by decide, by decide, by decide, by decide⟩
  | .obj fs => exact ⟨'{', _, rfl, by decide, by decide, by decide, by decide⟩

/-- Round trip for the element list of a printed non-empty array. -/
theorem parseElems_roundtrip_aux (d : Nat)
    (hV : ∀ (j : Json) (rest : Str) (fuel : Nat), goodB d j = true → needF d j ≤ fuel →
      parseValue fuel (stringifyJson d j ++ rest) = .ok (j, rest)) :
    ∀ (xs : List Json) (rest : Str) (fuel : Nat), xs ≠ [] → (∀ x ∈ xs, goodB d x = true) →
      (xs.map (fun x => needF d x)).foldr max 0 + xs.length ≤ fuel →
      parseElems fuel (joinComma (xs.map (fun x => stringifyJson d x)) ++ ']' :: rest)
        = .ok (xs, rest) := by
  intro xs
  induction xs with
  | nil => intro rest fuel hne _ _; exact absurd rfl hne
  | cons x ys ihE =>
    intro rest fuel _ hgood hfuel
    have hgx : goodB d x = true := hgood x (List.mem_cons_self x ys)
    match ys with
    | [] =>
      simp only [List.map_cons, List.map_nil, List.foldr_cons, List.foldr_nil,
        List.length_cons, List.length_nil, Nat.max_zero] at hfuel
      obtain ⟨f, rfl⟩ : ∃ f, fuel = f + 1 := ⟨fuel - 1, by omega⟩
      rw [parseElems_succ]
      simp only [parseElemsBody, List.map_cons, List.map_nil, joinComma]
      rw [hV x (']' :: rest) f hgx (by omega)]
      simp only [skipWs_rbrk]
    | y :: ys2 =>
      have hmax1 : needF d x ≤ ((x :: y :: ys2).map (fun z => needF d z)).foldr max 0 :=
        le_foldr_max _ _ (List.mem_map_of_mem _ (List.mem_cons_self x (y :: ys2)))
      have hmax2 : ((y :: ys2).map (fun z => needF d z)).foldr max 0
          ≤ ((x :: y :: ys2).map (fun z => needF d z)).foldr max 0 := by
        simp only [List.map_cons, List.foldr_cons]
        exact Nat.le_max_right _ _
      simp only [List.length_cons] at hfuel
      obtain ⟨f, rfl⟩ : ∃ f, fuel = f + 1 := ⟨fuel - 1, by omega⟩
      rw [parseElems_succ]
      simp only [parseElemsBody, List.map_cons, joinComma, List.cons_append,
        List.append_assoc]
      rw [hV x _ f hgx (by omega)]
      have hrec := ihE rest f (by simp)
        (fun z hz => hgood z (List.mem_cons_of_mem x hz))
        (by simp only [List.length_cons]; omega)
      simp only [List.map_cons] at hrec
      simp only [skipWs_comma, hrec]

/-- Round trip for the field list of a printed non-empty object. -/
theorem parseFields_roundtrip_aux (d : Nat)
    (hV : ∀ (j : Json) (rest : Str) (fuel : Nat), goodB d j = true → needF d j ≤ fuel →
      parseValue fuel (stringifyJson d j ++ rest) = .ok (j, rest)) :
    ∀ (fs : List (Str × Json)) (rest : Str) (fuel : Nat), fs ≠ [] →
      (∀ kv ∈ fs, goodB d kv.2 = true) →
      (fs.map (fun kv => needF d kv.2)).foldr max 0 + fs.length ≤ fuel →
      parseFields fuel
          (joinComma (fs.map (fun kv => '"' :: escapeStr kv.1 ++ '"' :: ':' :: stringifyJson d kv.2))
            ++ '}' :: rest)
        = .ok (fs, rest) := by
  intro fs
  induction fs with
  | nil => intro rest fuel hne _ _; exact absurd rfl hne
  | cons kv gs ihF =>
    intro rest fuel _ hgood hfuel
    have hgv : goodB d kv.2 = true := hgood kv (List.mem_cons_self kv gs)
    match gs with
    | [] =>
      simp only [List.map_cons, List.map_nil, List.foldr_cons, List.foldr_nil,
        List.length_cons, List.length_nil, Nat.max_zero] at hfuel
      obtain ⟨f, rfl⟩ : ∃ f, fuel = f + 1 := ⟨fuel - 1, by omega⟩
      rw [parseFields_succ]
      simp only [parseFieldsBody, List.map_cons, List.map_nil, joinComma,
        List.cons_append, List.append_assoc, skipWs_quote, parseStrBody_roundtrip,
        skipWs_colon]
      rw [hV kv.2 ('}' :: rest) f hgv (by omega)]
      simp only [skipWs_rbrc]
    | kv2 :: gs2 =>
      have hmax1 : needF d kv.2 ≤ ((kv :: kv2 :: gs2).map (fun z => needF d z.2)).foldr max 0 :=
        le_foldr_max _ _ (List.mem_map_of_mem _ (List.mem_cons_self kv (kv2 :: gs2)))
      have hmax2 : ((kv2 :: gs2).map (fun z => needF d z.2)).foldr max 0
          ≤ ((kv :: kv2 :: gs2).map (fun z => needF d z.2)).foldr max 0 := by
        simp only [List.map_cons, List.foldr_cons]
        exact Nat.le_max_right _ _
      simp only [List.length_cons] at hfuel
      obtain ⟨f, rfl⟩ : ∃ f, fuel = f + 1 := ⟨fuel - 1, by omega⟩
      rw [parseFields_succ]
      simp only [parseFieldsBody, List.map_cons, joinComma, List.cons_append,
        List.append_assoc, skipWs_quote, parseStrBody_roundtrip, skipWs_colon]
      rw [hV kv.2 _ f hgv (by omega)]
      have hrec := ihF rest f (by simp)
        (fun z hz => hgood z (List.mem_cons_of_mem kv hz))
        (by simp only [List.length_cons]; omega)
      simp only [List.map_cons, List.cons_append, List.append_assoc] at hrec
      simp only [skipWs_comma, hrec]

/-- Parsing a printed good value recovers the value (with the given rest). -/
theorem stringify_roundtrip_value : ∀ (d : Nat) (j : Json) (rest : Str) (fuel : Nat),
    goodB d j = true → needF d j ≤ fuel →
    parseValue fuel (stringifyJson d j ++ rest) = .ok (j, rest) := by
  intro d
  induction d with
  | zero => intro j rest fuel h _; simp [goodB] at h
  | succ d ih =>
    intro j rest fuel hgood hfuel
    obtain ⟨f, rfl⟩ : ∃ f, fuel = f + 1 := ⟨fuel - 1, by
      have := needF_pos (d + 1) j
      omega⟩
    rw [parseValue_succ]
    match j with
    | .null => rfl
    | .bool true => rfl
    | .bool false => rfl
    | .num n => simp [goodB] at hgood
    | .str s =>
      simp only [parseValueBody, stringifyJson, List.cons_append, List.append_assoc,
        List.nil_append, skipWs_quote, parseStrBody_roundtrip, Char.reduceEq, reduceIte]
    | .arr [] => rfl
    | .arr (x :: xs) =>
      have hgx : goodB d x = true := by
        simp only [goodB, List.all_eq_true] at hgood
        exact hgood x (List.mem_cons_self x xs)
      match d, ih, hgx with
      | 0, _, hgx => simp [goodB] at hgx
      | d2 + 1, ih, hgx =>
        obtain ⟨c0, t0, hprint, hws, hbr1, hbr2, hbr3⟩ := stringify_head d2 x hgx
        simp only [parseValueBody, stringifyJson, List.cons_append, List.append_assoc,
          List.nil_append, skipWs_lbrk, Char.reduceEq, reduceIte]
        obtain ⟨Z, hZ⟩ : ∃ Z, joinComma ((x :: xs).map (fun z => stringifyJson (d2 + 1) z))
            ++ ']' :: rest = stringifyJson (d2 + 1) x ++ Z := by
          cases xs with
          | nil => exact ⟨']' :: rest, by simp [joinComma]⟩
          | cons y ys =>
            refine ⟨',' :: (joinComma ((y :: ys).map (fun z => stringifyJson (d2 + 1) z))
              ++ ']' :: rest), ?_⟩
            simp [joinComma, List.append_assoc]
        have hgall : ∀ z ∈ x :: xs, goodB (d2 + 1) z = true := by
          simp only [goodB, List.all_eq_true] at hgood
          exact hgood
        have hfneed : ((x :: xs).map (fun z => needF (d2 + 1) z)).foldr max 0
            + (x :: xs).length ≤ f := by
          simp only [needF] at hfuel
          omega
        have helems := parseElems_roundtrip_aux (d2 + 1) ih (x :: xs) rest f
          (by simp) hgall hfneed
        simp only [List.map_cons, List.cons_append, List.append_assoc] at hZ helems ⊢
        rw [hZ, hprint, List.cons_append, skipWs_cons c0 _ hws]
        split
        · rename_i r hmatch
          injection hmatch with hh _
          exact absurd hh hbr1
        · rw [← List.cons_append, ← hprint, ← hZ, helems]
    | .obj [] => rfl
    | .obj (kv :: fs) =>
      have hgv : goodB d kv.2 = true := by
        simp only [goodB, List.all_eq_true, Bool.and_eq_true] at hgood
        exact (hgood kv (List.mem_cons_self kv fs)).2
      match d, ih, hgv with
      | 0, _, hgv => simp [goodB] at hgv
      | d2 + 1, ih, hgv =>
        simp only [parseValueBody, stringifyJson, List.cons_append, List.append_assoc,
          List.nil_append, skipWs_lbrc, Char.reduceEq, reduceIte]
        obtain ⟨Z, hZ⟩ : ∃ Z, joinComma ((kv :: fs).map
              (fun z => ('"' : Char) :: escapeStr z.1 ++ '"' :: ':' :: stringifyJson (d2 + 1) z.2))
            ++ '}' :: rest = '"' :: Z := by
          cases fs with
          | nil =>
            exact ⟨escapeStr kv.1 ++ '"' :: ':' :: stringifyJson (d2 + 1) kv.2 ++ '}' :: rest,
              by simp [joinComma, List.append_assoc]⟩
          | cons kv2 gs =>
            refine ⟨escapeStr kv.1 ++ '"' :: ':' :: stringifyJson (d2 + 1) kv.2 ++
              ',' :: (joinComma ((kv2 :: gs).map
                (fun z => '"' :: escapeStr z.1 ++ '"' :: ':' :: stringifyJson (d2 + 1) z.2))
                ++ '}' :: rest), ?_⟩
            simp [joinComma, List.append_assoc]
        have hgall : ∀ z ∈ kv :: fs, goodB (d2 + 1) z.2 = true := by
          simp only [goodB, List.all_eq_true, Bool.and_eq_true] at hgood
          exact fun z hz => (hgood z hz).2
        have hfneed : ((kv :: fs).map (fun z => needF (d2 + 1) z.2)).foldr max 0
            + (kv :: fs).length ≤ f := by
          simp only [needF] at hfuel
          omega
        have hfields := parseFields_roundtrip_aux (d2 + 1) ih (kv :: fs) rest f
          (by simp) hgall hfneed
        simp only [List.map_cons, List.cons_append, List.append_assoc] at hZ hfields ⊢
        rw [hZ]
        rw [show skipWs (('"' : Char) :: Z) = '"' :: Z from skipWs_quote Z]
        split
        · rename_i r hmatch
          injection hmatch with hh _
          exact absurd hh (by decide)
        · rw [← hZ, hfields]

/-- A member is at most the sum of its list. -/
theorem le_sum_mem : ∀ (l : List Nat) (a : Nat), a ∈ l → a ≤ l.sum := by
  intro l
  induction l with
  | nil => intro a h; simp at h
  | cons b t ih =>
    intro a h
    rcases List.mem_cons.mp h with h0 | h0
    · subst h0
      simp only [List.sum_cons]
      omega
    · have := ih a h0
      simp only [List.sum_cons]
      omega

/-- A fold of `max` is below any common upper bound. -/
theorem foldr_max_le : ∀ (l : List Nat) (b : Nat), (∀ a ∈ l, a ≤ b) → l.foldr max 0 ≤ b := by
  intro l
  induction l with
  | nil => intro b _; simp
  | cons x t ih =>
    intro b h
    simp only [List.foldr_cons]
    exact Nat.max_le.mpr ⟨h x (List.mem_cons_self x t),
      ih b (fun a ha => h a (List.mem_cons_of_mem x ha))⟩

/-- Length of a comma join of a non-empty list. -/
theorem joinComma_length : ∀ (x : Str) (l : List Str),
    (joinComma (x :: l)).length = x.length + (l.map List.length).sum + l.length := by
  intro x l
  induction l generalizing x with
  | nil => simp [joinComma]
  | cons y t ih =>
    rw [show joinComma (x :: y :: t) = x ++ ',' :: joinComma (y :: t) from rfl]
    simp only [List.length_append, List.length_cons, ih y, List.map_cons, List.sum_cons]
    omega

/-- The parse-fuel bound is dominated by the printed length (so `JSON.parse`'s
own fuel, `2 * length + 2`, always suffices for printed good values). -/
theorem needF_le_print : ∀ (d : Nat) (j : Json), goodB d j = true →
    needF d j ≤ 2 * (stringifyJson d j).length + 2 := by
  intro d
  induction d with
  | zero => intro j h; simp [goodB] at h
  | succ d ih =>
    intro j hgood
    match j with
    | .null => simp [needF]
    | .bool b => cases b <;> simp [needF]
    | .num n => simp [goodB] at hgood
    | .str s => simp [needF]
    | .arr [] => simp [needF, stringifyJson, joinComma]
    | .arr (x :: xs) =>
      simp only [goodB, List.all_eq_true] at hgood
      have hM : ((x :: xs).map (fun z => needF d z)).foldr max 0
          ≤ 2 * (((x :: xs).map (fun z => stringifyJson d z)).map List.length).sum + 2 := by
        refine foldr_max_le _ _ (fun a ha => ?_)
        simp only [List.mem_map] at ha
        obtain ⟨z, hz, rfl⟩ := ha
        refine le_trans (ih z (hgood z hz)) ?_
        have hmem : (stringifyJson d z).length
            ∈ ((x :: xs).map (fun w => stringifyJson d w)).map List.length := by
          simp only [List.map_map, List.mem_map]
          exact ⟨z, hz, rfl⟩
        have := le_sum_mem _ _ hmem
        omega
      have hlen : (stringifyJson (d + 1) (.arr (x :: xs))).length
          = (((x :: xs).map (fun z => stringifyJson d z)).map List.length).sum
            + (x :: xs).length + 1 := by
        rw [show stringifyJson (d + 1) (.arr (x :: xs))
            = '[' :: joinComma ((x :: xs).map (fun z => stringifyJson d z)) ++ [']'] from rfl]
        simp only [List.length_cons, List.length_append, List.map_cons,
          joinComma_length, List.length_nil, List.sum_cons, List.length_map]
        omega
      simp only [needF]
      rw [hlen]
      simp only [List.length_cons] at hM ⊢
      omega
    | .obj [] => simp [needF, stringifyJson, joinComma]
    | .obj (kv :: fs) =>
      simp only [goodB, List.all_eq_true, Bool.and_eq_true] at hgood
      have hM : ((kv :: fs).map (fun z => needF d z.2)).foldr max 0
          ≤ 2 * (((kv :: fs).map
              (fun z => '"' :: escapeStr z.1 ++ '"' :: ':' :: stringifyJson d z.2)).map
              List.length).sum + 2 := by
        refine foldr_max_le _ _ (fun a ha => ?_)
        simp only [List.mem_map] at ha
        obtain ⟨z, hz, rfl⟩ := ha
        refine le_trans (ih z.2 (hgood z hz).2) ?_
        have hmem : (('"' :: escapeStr z.1 ++ '"' :: ':' :: stringifyJson d z.2) : Str).length
            ∈ (((kv :: fs).map
              (fun w => '"' :: escapeStr w.1 ++ '"' :: ':' :: stringifyJson d w.2)).map
              List.length) := by
          simp only [List.map_map, List.mem_map]
          exact ⟨z, hz, rfl⟩
        have h2 := le_sum_mem _ _ hmem
        simp only [List.length_cons, List.length_append] at h2
        omega
      have hlen : (stringifyJson (d + 1) (.obj (kv :: fs))).length
          = (((kv :: fs).map
              (fun z => '"' :: escapeStr z.1 ++ '"' :: ':' :: stringifyJson d z.2)).map
              List.length).sum + (kv :: fs).length + 1 := by
        rw [show stringifyJson (d + 1) (.obj (kv :: fs))
            = '{' :: joinComma ((kv :: fs).map
                (fun z => '"' :: escapeStr z.1 ++ '"' :: ':' :: stringifyJson d z.2)) ++ ['}']
            from rfl]
        simp only [List.length_cons, List.length_append, List.map_cons,
          joinComma_length, List.length_nil, List.sum_cons, List.length_map]
        omega
      simp only [needF]
      rw [hlen]
      simp only [List.length_cons] at hM ⊢
      omega

/-- `JSON.parse` recovers every printed good value. -/
theorem jsonParse_stringify (d : Nat) (j : Json) (h : goodB d j = true) :
    jsonParse (stringifyJson d j) = .ok j := by
  have hrt := stringify_roundtrip_value d j [] (2 * (stringifyJson d j).length + 2) h
    (needF_le_print d j h)
  rw [List.append_nil] at hrt
  simp only [jsonParse, hrt]
  rfl

/-- Membership in a comma join comes from a separator or some part. -/
theorem joinComma_mem : ∀ (l : List Str) (a : Char), a ∈ joinComma l →
    a = ',' ∨ ∃ x ∈ l, a ∈ x := by
  intro l
  induction l with
  | nil => intro a h; simp [joinComma] at h
  | cons x t ih =>
    intro a h
    match t with
    | [] =>
      right
      exact ⟨x, List.mem_cons_self x [], h⟩
    | y :: t2 =>
      rw [show joinComma (x :: y :: t2) = x ++ ',' :: joinComma (y :: t2) from rfl] at h
      rcases List.mem_append.mp h with h0 | h0
      · exact Or.inr ⟨x, List.mem_cons_self x (y :: t2), h0⟩
      · rcases List.mem_cons.mp h0 with h1 | h1
        · exact Or.inl h1
        · rcases ih a h1 with h2 | ⟨z, hz, h3⟩
          · exact Or.inl h2
          · exact Or.inr ⟨z, List.mem_cons_of_mem x hz, h3⟩

/-- `escapeStr` introduces no backtick if the source has none. -/
theorem escapeStr_no_backtick : ∀ (s : Str), (∀ c ∈ s, ¬ c = '`') → '`' ∉ escapeStr s := by
  intro s
  induction s with
  | nil => intro _ h; simp [escapeStr] at h
  | cons c t ih =>
    intro hall h
    rw [escapeStr_cons] at h
    rcases List.mem_append.mp h with h0 | h0
    · have hc := hall c (List.mem_cons_self c t)
      simp only [escEncode] at h0
      split at h0
      · simp at h0
      · split at h0
        · simp at h0
        · split at h0
          · simp at h0
          · split at h0
            · simp at h0
            · split at h0
              · simp at h0
              · simp at h0
                exact hc h0.symm
    · exact ih (fun z hz => hall z (List.mem_cons_of_mem c hz)) h0

/-- The printed form of a good value contains no backtick. -/
theorem stringify_no_backtick : ∀ (d : Nat) (j : Json), goodB d j = true →
    '`' ∉ stringifyJson d j := by
  intro d
  induction d with
  | zero => intro j h; simp [goodB] at h
  | succ d ih =>
    intro j hgood hmem
    match j with
    | .null => simp [stringifyJson] at hmem
    | .bool b => cases b <;> simp [stringifyJson] at hmem
    | .num n => simp [goodB] at hgood
    | .str s =>
      simp only [goodB, List.all_eq_true, decide_eq_true_eq] at hgood
      rw [show stringifyJson (d + 1) (.str s) = '"' :: escapeStr s ++ ['"'] from rfl] at hmem
      rcases List.mem_cons.mp hmem with h0 | h0
      · exact absurd h0.symm (by decide)
      · rcases List.mem_append.mp h0 with h1 | h1
        · exact escapeStr_no_backtick s hgood h1
        · simp at h1
    | .arr xs =>
      simp only [goodB, List.all_eq_true] at hgood
      rw [show stringifyJson (d + 1) (.arr xs)
          = '[' :: joinComma (xs.map (fun z => stringifyJson d z)) ++ [']'] from rfl] at hmem
      rcases List.mem_cons.mp hmem with h0 | h0
      · exact absurd h0.symm (by decide)
      · rcases List.mem_append.mp h0 with h1 | h1
        · rcases joinComma_mem _ _ h1 with h2 | ⟨z, hz, h3⟩
          · exact absurd h2 (by decide)
          · obtain ⟨w, hw, rfl⟩ := List.mem_map.mp hz
            exact ih w (hgood w hw) h3
        · simp at h1
    | .obj fs =>
      simp only [goodB, List.all_eq_true, Bool.and_eq_true] at hgood
      rw [show stringifyJson (d + 1) (.obj fs)
          = '{' :: joinComma (fs.map
              (fun z => '"' :: escapeStr z.1 ++ '"' :: ':' :: stringifyJson d z.2)) ++ ['}']
          from rfl] at hmem
      rcases List.mem_cons.mp hmem with h0 | h0
      · exact absurd h0.symm (by decide)
      · rcases List.mem_append.mp h0 with h1 | h1
        · rcases joinComma_mem _ _ h1 with h2 | ⟨z, hz, h3⟩
          · exact absurd h2 (by decide)
          · obtain ⟨w, hw, rfl⟩ := List.mem_map.mp hz
            rcases List.mem_cons.mp h3 with h4 | h4
            · exact absurd h4.symm (by decide)
            · rcases List.mem_append.mp h4 with h5 | h5
              · have hkey := (hgood w hw).1
                simp only [List.all_eq_true, decide_eq_true_eq] at hkey
                exact escapeStr_no_backtick w.1 hkey h5
              · rcases List.mem_cons.mp h5 with h6 | h6
                · exact absurd h6.symm (by decide)
                · rcases List.mem_cons.mp h6 with h7 | h7
                  · exact absurd h7.symm (by decide)
                  · exact ih w.2 (hgood w hw).2 h7
        · simp at h1

/-- The json-fence stripper is a no-op on backtick-free text. -/
theorem stripJsonFences_noop : ∀ (s : Str), '`' ∉ s → stripJsonFences s = s := by
  intro s
  induction s using stripJsonFences.induct with
  | case1 c1 c2 c3 c4 rest hcond ih =>
    intro h
    exact absurd (List.mem_cons_self '`' _) h
  | case2 c1 c2 c3 c4 rest hcond ih =>
    intro h
    exact absurd (List.mem_cons_self '`' _) h
  | case3 c rest hne ih =>
    intro h
    rw [stripJsonFences]
    · rw [ih (fun hm => h (List.mem_cons_of_mem c hm))]
    all_goals exact hne
  | case4 => intro _; rw [stripJsonFences]

/-- The bare-fence stripper is a no-op on backtick-free text. -/
theorem stripFences_noop : ∀ (s : Str), '`' ∉ s → stripFences s = s := by
  intro s
  induction s using stripFences.induct with
  | case1 rest ih =>
    intro h
    exact absurd (List.mem_cons_self '`' _) h
  | case2 c rest hne ih =>
    intro h
    rw [stripFences]
    · rw [ih (fun hm => h (List.mem_cons_of_mem c hm))]
    all_goals exact hne
  | case3 => intro _; rw [stripFences]

/-- `trim` is a no-op when the text starts and ends with non-whitespace. -/
theorem jsTrim_noop_shape (c e : Char) (mid : Str) (h1 : isWsChar c = false)
    (h2 : isWsChar e = false) : jsTrim (c :: (mid ++ [e])) = c :: (mid ++ [e]) := by
  simp only [jsTrim]
  rw [List.dropWhile_cons_of_neg (by simp [h1])]
  rw [show (c :: (mid ++ [e])).reverse = e :: (mid.reverse ++ [c]) from by
    simp [List.reverse_cons, List.reverse_append]]
  rw [List.dropWhile_cons_of_neg (by simp [h2])]
  rw [show (e :: (mid.reverse ++ [c])).reverse = c :: (mid ++ [e]) from by
    simp [List.reverse_cons, List.reverse_append]]


/-! ### C5: the all-attempts-fail path of the second revision's handler -/

/-- The static fallback data is in the printable fragment. -/
theorem goodB_fallback : goodB 8 createFallbackQuestionsJson = true := by decide

/-- `JSON.parse` of the fallback string recovers the fallback array. -/
theorem jsonParse_fallback : jsonParse createFallbackQuestions
    = .ok (Json.arr (fallbackQuestionsData.map fallbackQuestionJson)) :=
  jsonParse_stringify 8 createFallbackQuestionsJson goodB_fallback

/-- On any printed good array the `part_002`-style extractor succeeds on the
direct-parse branch and re-serialises the parsed array. -/
theorem extract_p2_print (d : Nat) (xs : List Json) (h : goodB (d + 1) (.arr xs) = true) :
    extractAndCleanJSON_p2 (stringifyJson (d + 1) (.arr xs))
      = .ok (stringifyJson ((stringifyJson (d + 1) (.arr xs)).length + 8) (.arr xs)) := by
  have hnb : '`' ∉ stringifyJson (d + 1) (.arr xs) := stringify_no_backtick _ _ h
  have e1 : jsTrim (stringifyJson (d + 1) (.arr xs)) = stringifyJson (d + 1) (.arr xs) := by
    rw [show stringifyJson (d + 1) (.arr xs)
        = '[' :: (joinComma (xs.map (fun z => stringifyJson d z)) ++ [']']) from rfl]
    exact jsTrim_noop_shape '[' ']' _ (by decide) (by decide)
  have e2 := stripJsonFences_noop _ hnb
  have e3 := stripFences_noop _ hnb
  have e4 : jsonParse (stringifyJson (d + 1) (.arr xs)) = .ok (Json.arr xs) :=
    jsonParse_stringify (d + 1) (.arr xs) h
  simp only [extractAndCleanJSON_p2, e1, e2, e3, e4]

/-- The `part_002`-style extractor returns the fallback string unchanged. -/
theorem extract_p2_fallback :
    extractAndCleanJSON_p2 createFallbackQuestions = .ok createFallbackQuestions := by
  have h := extract_p2_print 7 (fallbackQuestionsData.map fallbackQuestionJson)
    goodB_fallback
  rw [show stringifyJson 8 (Json.arr (fallbackQuestionsData.map fallbackQuestionJson))
      = createFallbackQuestions from rfl] at h
  have e5 : stringifyJson (createFallbackQuestions.length + 8)
      (Json.arr (fallbackQuestionsData.map fallbackQuestionJson)) = createFallbackQuestions := by
    have hf1 : jfits 8 createFallbackQuestionsJson = true := goodB_fits 8 _ goodB_fallback
    have hf2 : jfits (createFallbackQuestions.length + 8) createFallbackQuestionsJson = true :=
      jfits_mono 8 _ _ (by omega) hf1
    exact stringifyJson_fits _ 8 _ hf2 hf1
  rw [e5] at h
  exact h

/-- The second revision's extractor returns the fallback string unchanged. -/
theorem extract_v2_fallback :
    extractAndCleanJSON_v2 createFallbackQuestions = createFallbackQuestions := by
  rw [extractAndCleanJSON_v2.eq_def, extract_p2_fallback]

/-- Three failing attempts exhaust `generateWithRetry` with the last error. -/
theorem generateWithRetry_all_fail (attempts : Nat → ModelOutcome) (m1 m2 m3 : String)
    (h1 : attemptOutcome (attempts 1) = .error m1)
    (h2 : attemptOutcome (attempts 2) = .error m2)
    (h3 : attemptOutcome (attempts 3) = .error m3) :
    generateWithRetry attempts 3 = .error m3 := by
  rw [generateWithRetry, generateWithRetryGo, if_neg (by omega)]
  simp only [h1]
  rw [if_neg (by omega), generateWithRetryGo, if_neg (by omega)]
  simp only [h2]
  rw [if_neg (by omega), generateWithRetryGo, if_neg (by omega)]
  simp only [h3]
  simp

/-- The ten records the second revision's validator produces from the fallback
array: sequential ids and the table's strings. -/
def fallbackRecords : List QuestionRecord :=
  ((List.range 10).zip fallbackQuestionsData).map
    (fun p => { id := p.1 + 1, question := p.2.1, answer := p.2.2.1, tips := p.2.2.2 })

/-- The second revision's validation stage maps the fallback array to
`fallbackRecords`. -/
theorem processQuestionsRB_fallback :
    processQuestionsRB (fallbackQuestionsData.map fallbackQuestionJson)
      = .ok fallbackRecords := by
  have hv : validateListWith validateItemRB 0
      ((fallbackQuestionsData.map fallbackQuestionJson).take 10) = .ok fallbackRecords := rfl
  have hlen : fallbackRecords.length = 10 := by decide
  have hpad : padQuestionsRB fallbackRecords = fallbackRecords := by
    rw [padQuestionsRB_eq 0 fallbackRecords (by rw [hlen])]
    rw [hlen, padTailFrom, if_neg (by omega)]
    simp
  simp only [processQuestionsRB, hv, Bind.bind, Except.bind, hpad]
  rfl


/-! ### The `part_003` handler -/

/-- `String.prototype.includes(needle)`. -/
def strIncludes (needle : Str) : Str → Bool
  | [] => needle.isEmpty
  | c :: rest => needle.isPrefixOf (c :: rest) || strIncludes needle rest

/-- `extractAndCleanJSON` of `part_003` (lines 31–53; the same body opens
`src/src/main.js`, lines 31–53): strip fences and trim, slice between the
first `[` and the last `]` (throwing `No valid JSON array found in response`
otherwise), then the five-substitution repair chain with a final `.trim()`;
every thrown message is wrapped as `Failed to clean JSON: …`. -/
def extractAndCleanJSON_p3 (text : Str) : Except String Str :=
  let cleaned := jsTrim (stripFences (stripJsonFencesCS text))
  match indexOfChar '[' cleaned, lastIndexOfChar ']' cleaned with
  | some s, some l =>
    if s ≥ l then .error "Failed to clean JSON: No valid JSON array found in response"
    else .ok (repairSubstitutionsV0 (jsSubstring cleaned s (l + 1)))
  | _, _ => .error "Failed to clean JSON: No valid JSON array found in response"

/-- `generateWithTimeout` of `part_003` (lines 104–127; the first revision of
`src/src/main.js`, lines 107–123, has the same body): the timer rejects
with `AI generation timeout`, model rejections propagate unchanged, and a
resolved call without a response makes the subsequent
`result.response.text()` throw a TypeError; there is no empty-text check —
whatever text the model resolves with is returned as is. -/
def generateWithTimeoutP3 : ModelOutcome → Except String Str
  | .timeout => .error "AI generation timeout"
  | .threw m => .error m
  | .noResponse => .error "TypeError: Cannot read properties of undefined (reading 'text')"
  | .text t => .ok t

/-- The environment of one request to `part_003`'s handler. -/
structure EnvP3 where
  body : Str
  talentQuery : Except String (List Talent)
  careerPathDoc : Except String CareerPath
  modelCall : ModelOutcome
  generatedAt : Str
  executionTime : Int

/-- `part_003`'s success response (lines 254–277): `metadata.totalQuestions`
is the question count and `usedFallback` is hard-coded `false`. -/
def successResponseP3 (categoryTitle : Str) (talent : Talent)
    (careerPath : Option CareerPath) (questions : List QuestionRecord)
    (env : EnvP3) : HttpResponse :=
  (.obj [(sl "success", .bool true), (sl "statusCode", .num 200),
         (sl "questions", .arr (questions.map questionRecordJson)),
         (sl "metadata", .obj [
           (sl "totalQuestions", .num (questions.length : Int)),
           (sl "category", .str categoryTitle),
           (sl "talent", talentMetaJson talent),
           (sl "careerPath", careerPathMetaJson careerPath),
           (sl "generatedAt", .str env.generatedAt),
           (sl "executionTime", .num env.executionTime),
           (sl "usedFallback", .bool false)])], 200)

/-- `part_003`'s AI-generation section (lines 204–252; the first revision of
`src/src/main.js`, lines 210–258, has the same body up to prompt and model
configuration): one timed model call whose resolved text is handed directly
to the extractor (`const cleanedJson = extractAndCleanJSON(responseText)`,
first-revision line 220), then parse and validate; the `catch (aiError)`
answers 408 `Request timeout - please try again` when the message contains
`timeout` and 500 `Failed to generate questions` otherwise — it never builds
a fallback response and there is no retry. -/
def generationSectionP3 (env : EnvP3) (categoryTitle : Str) (talent : Talent)
    (careerPath : Option CareerPath) : HttpResponse :=
  let attempt : Except String (List QuestionRecord) :=
    match generateWithTimeoutP3 env.modelCall with
    | .error m => .error m
    | .ok responseText =>
      match extractAndCleanJSON_p3 responseText with
      | .error m => .error m
      | .ok cleanedJson =>
        match jsonParse cleanedJson with
        | .error m => .error m
        | .ok (.arr (q :: qs)) => processQuestionsP3 (q :: qs)
        | .ok _ => .error "Invalid questions array from AI"
  match attempt with
  | .ok questions => successResponseP3 categoryTitle talent careerPath questions env
  | .error m =>
    if strIncludes (sl "timeout") (sl m) then
      plainErrorResponse "Request timeout - please try again" 408
    else plainErrorResponse "Failed to generate questions" 500

/-- The `try` body of `part_003`'s handler (lines 132–277). -/
def handlerP3Try (env : EnvP3) : Except String HttpResponse :=
  match jsonParse env.body with
  | .error _ => .ok (plainErrorResponse "Invalid JSON input" 400)
  | .ok requestData =>
    match requestData with
    | .null => .error "TypeError: Cannot destructure property 'talentId' of null"
    | _ =>
      if ¬ truthyOpt (objField requestData (sl "talentId")) then
        .ok (plainErrorResponse "Missing talentId parameter" 400)
      else
        let category := objField requestData (sl "category")
        if ¬ truthyOpt category then .ok invalidCategoryResponse
        else
          match tlookup QUESTION_CATEGORIES (jsToString (category.getD .null)) with
          | none => .ok invalidCategoryResponse
          | some categoryTitle =>
            match env.talentQuery with
            | .error _ => .ok (plainErrorResponse "Talent not found" 404)
            | .ok [] => .ok (plainErrorResponse "Talent not found" 404)
            | .ok (talent :: _) =>
              let careerPath : Option CareerPath :=
                if optStrTruthy talent.selectedPath then
                  match env.careerPathDoc with
                  | .ok cp => some cp
                  | .error _ => none
                else none
              .ok (generationSectionP3 env categoryTitle talent careerPath)

/-- The exported handler of `part_003`; the outer catch (lines 279–287)
returns the 500 `Internal server error` response. -/
def handlerP3 (env : EnvP3) : HttpResponse :=
  match handlerP3Try env with
  | .ok resp => resp
  | .error _ =>
    (.obj [(sl "success", .bool false),
           (sl "error", .str (sl "Internal server error")),
           (sl "statusCode", .num 500),
           (sl "executionTime", .num env.executionTime)], 500)

/-- A `part_003` request whose model call times out. -/
def envC5cex : EnvP3 :=
  { body := sl "\x7b\"talentId\":\"t1\",\"category\":\"technical\"\x7d",
    talentQuery := .ok [talentC4],
    careerPathDoc := .error "Document not found",
    modelCall := .timeout,
    generatedAt := sl "t",
    executionTime := 5 }

/-- A second-revision request whose three model attempts all time out. -/
def envC5rb : EnvRB :=
  { body := sl "\x7b\"talentId\":\"t1\",\"category\":\"technical\"\x7d",
    talentQuery := .ok [talentC4],
    careerPathDoc := .error "Document not found",
    attempts := fun _ => .timeout,
    generatedAt := sl "t",
    executionTime := 5 }

/-- The `technical` category resolves to its table title. -/
theorem tlookup_technical :
    tlookup QUESTION_CATEGORIES (jsToString (Json.str (sl "technical")))
      = some (sl "Technical / Role-Specific Questions") := by
  rw [show jsToString (Json.str (sl "technical")) = sl "technical" by rw [jsToString]]
  decide

set_option maxRecDepth 100000 in
/-- C5, counterexample: in the `part_003` handler (cited lines 235–252) a
request whose model call times out is answered with the 408
`Request timeout - please try again` error response — not a fallback-backed
200 response with `usedFallback = true`. -/
theorem all_attempts_timeout_error_P3 :
    handlerP3 envC5cex = plainErrorResponse "Request timeout - please try again" 408 := by
  have hb : jsonParse envC5cex.body
      = .ok (.obj [(sl "talentId", .str (sl "t1")),
                   (sl "category", .str (sl "technical"))]) := rfl
  have httl : tlookup QUESTION_CATEGORIES
      (jsToString ((objField (Json.obj [(sl "talentId", Json.str (sl "t1")),
        (sl "category", Json.str (sl "technical"))]) (sl "category")).getD Json.null))
      = some (sl "Technical / Role-Specific Questions") := by
    rw [show ((objField (Json.obj [(sl "talentId", Json.str (sl "t1")),
      (sl "category", Json.str (sl "technical"))]) (sl "category")).getD Json.null)
      = Json.str (sl "technical") from rfl]
    exact tlookup_technical
  have hinc : strIncludes (sl "timeout") (sl "AI generation timeout") = true := by decide
  have hgen : ∀ (ct : Str) (t : Talent) (cp : Option CareerPath),
      generationSectionP3 envC5cex ct t cp
        = plainErrorResponse "Request timeout - please try again" 408 := by
    intro ct t cp
    unfold generationSectionP3
    rw [show envC5cex.modelCall = ModelOutcome.timeout from rfl]
    simp only [generateWithTimeoutP3, hinc, reduceIte]
  have httid : truthyOpt (objField (Json.obj [(sl "talentId", Json.str (sl "t1")),
      (sl "category", Json.str (sl "technical"))]) (sl "talentId")) = true := by decide
  have hcat : truthyOpt (objField (Json.obj [(sl "talentId", Json.str (sl "t1")),
      (sl "category", Json.str (sl "technical"))]) (sl "category")) = true := by decide
  unfold handlerP3 handlerP3Try
  rw [hb]
  simp only [httid, hcat, httl, hgen, eq_self_iff_true, not_true, reduceIte,
    show envC5cex.talentQuery = .ok [talentC4] from rfl]

/-- C5, amended: in the second `src/src/main.js` revision (cited lines
677–708), whenever the request body parses to an object with a truthy
`talentId` and a known category and the talent is found, if all three retry
attempts of the model call fail (for example, all time out) the handler
returns the 200 success response built from the static fallback questions
with `metadata.usedFallback = true` — never an error response. -/
theorem all_attempts_failed_fallback_RB (env : EnvRB) (flds : List (Str × Json))
    (categoryTitle : Str) (talent : Talent) (restT : List Talent)
    (m1 m2 m3 : String)
    (hbody : jsonParse env.body = .ok (.obj flds))
    (htid : truthyOpt (objField (.obj flds) (sl "talentId")) = true)
    (hcat : truthyOpt (objField (.obj flds) (sl "category")) = true)
    (httl : tlookup QUESTION_CATEGORIES
      (jsToString ((objField (.obj flds) (sl "category")).getD .null)) = some categoryTitle)
    (htal : env.talentQuery = .ok (talent :: restT))
    (h1 : attemptOutcome (env.attempts 1) = .error m1)
    (h2 : attemptOutcome (env.attempts 2) = .error m2)
    (h3 : attemptOutcome (env.attempts 3) = .error m3) :
    handlerRB env = successResponseRB categoryTitle talent
      (if optStrTruthy talent.selectedPath then
        match env.careerPathDoc with
        | .ok cp => some cp
        | .error _ => none
       else none)
      fallbackRecords true env := by
  have hretry := generateWithRetry_all_fail env.attempts m1 m2 m3 h1 h2 h3
  unfold handlerRB handlerRBTry
  rw [hbody]
  simp only [htid, hcat, httl, htal, hretry, extract_v2_fallback, jsonParse_fallback,
    processQuestionsRB_fallback, eq_self_iff_true, not_true, reduceIte]

set_option maxRecDepth 100000 in
/-- C5 witness: the amended theorem applied at a concrete environment in
which every attempt times out. -/
theorem all_attempts_failed_fallback_RB_witness :
    jsonParse envC5rb.body
      = .ok (.obj [(sl "talentId", .str (sl "t1")), (sl "category", .str (sl "technical"))]) ∧
    attemptOutcome (envC5rb.attempts 1) = .error "AI generation timeout" ∧
    handlerRB envC5rb = successResponseRB (sl "Technical / Role-Specific Questions") talentC4
      (if optStrTruthy talentC4.selectedPath then
        match envC5rb.careerPathDoc with
        | .ok cp => some cp
        | .error _ => none
       else none)
      fallbackRecords true envC5rb :=
  ⟨rfl, rfl,
   all_attempts_failed_fallback_RB envC5rb
     [(sl "talentId", .str (sl "t1")), (sl "category", .str (sl "technical"))]
     (sl "Technical / Role-Specific Questions") talentC4 []
     "AI generation timeout" "AI generation timeout" "AI generation timeout"
     rfl rfl rfl
     (by rw [show ((objField (Json.obj [(sl "talentId", Json.str (sl "t1")),
        (sl "category", Json.str (sl "technical"))]) (sl "category")).getD Json.null)
        = Json.str (sl "technical") from rfl]; exact tlookup_technical)
     rfl rfl rfl rfl⟩

/-! ### Claim C6, the cited first revision's forwarding of empty text -/

/-- A first-revision/`part_003`-style request whose model call resolves with
whitespace-only response text. -/
def envC6cex : EnvP3 :=
  { body := sl "\x7b\"talentId\":\"t1\",\"category\":\"technical\"\x7d",
    talentQuery := .ok [talentC4],
    careerPathDoc := .error "Document not found",
    modelCall := .text (sl " "),
    generatedAt := sl "t",
    executionTime := 5 }

/-- C6, counterexample: in the first `src/src/main.js` revision (cited lines
107–123) `generateWithTimeout` has no empty-text check — a whitespace-only
response text is resolved, not recorded as an attempt failure — and the
generation section forwards it to the Extractor (line 220), whose thrown
`Failed to clean JSON: …` error becomes the 500 `Failed to generate
questions` response, with no retry/backoff. -/
theorem empty_text_forwarded_to_extractor_RA :
    generateWithTimeoutP3 (ModelOutcome.text (sl " ")) = .ok (sl " ") ∧
    extractAndCleanJSON_p3 (sl " ")
      = .error "Failed to clean JSON: No valid JSON array found in response" ∧
    generationSectionP3 envC6cex (sl "Technical / Role-Specific Questions") talentC4 none
      = plainErrorResponse "Failed to generate questions" 500 := by
  have h0 : stripJsonFencesCS [] = [] := by rw [stripJsonFencesCS.eq_def]
  have h1 : stripJsonFencesCS (sl " ") = sl " " := by
    rw [show sl " " = [' '] from rfl, stripJsonFencesCS.eq_def]
    show ' ' :: stripJsonFencesCS [] = [' ']
    rw [h0]
  have h2 : stripFences (sl " ") = sl " " := stripFences_noop _ (by decide)
  have h3 : extractAndCleanJSON_p3 (sl " ")
      = .error "Failed to clean JSON: No valid JSON array found in response" := by
    simp only [extractAndCleanJSON_p3, h1, h2]
    rfl
  have hni : strIncludes (sl "timeout")
      (sl "Failed to clean JSON: No valid JSON array found in response") = false := by decide
  refine ⟨rfl, h3, ?_⟩
  unfold generationSectionP3
  rw [show envC6cex.modelCall = ModelOutcome.text (sl " ") from rfl]
  simp only [generateWithTimeoutP3, h3, hni, Bool.false_eq_true, reduceIte]

end IQ
